import Mathlib

/-!
# LingDig: HTTP probe (curl) and DNS probe (dig) services

A shallow embedding of `curl_service.go` and `dig_service.go`.

Go strings and byte slices are sequences of bytes, so both are modelled as
`List Byte`.  String literals of the source are written `goStr "..."`, the
UTF-8 encoding of the literal.  The pieces of the Go standard library the
source calls (`strings`, `unicode/utf8`, `fmt` verbs, `net/url`, the redirect
loop of `net/http`) are modelled next to the functions that use them; the
parts of those libraries that are table driven or release dependent are taken
as parameters (`CaseTable`, `UrlLib`, `DnsLib`).
-/

namespace LingDig

/-! ## Bytes, strings and UTF-8 -/

/-- One byte. -/
abbrev Byte := Fin 256

/-- A Go `string` (or `[]byte`): a sequence of bytes. -/
abbrev GoString := List Byte

deriving instance DecidableEq for Except

/-- Conversion `byte(n)`: the low eight bits of `n`. -/
def byteOf (n : Nat) : Byte := ⟨n % 256, Nat.mod_lt n (by decide)⟩

/-- The rune `utf8.RuneError`, U+FFFD. -/
def RuneError : Nat := 0xFFFD

/-- Go `utf8.AppendRune`: the UTF-8 encoding of a rune; surrogates and values
above U+10FFFF are encoded as U+FFFD. -/
def EncodeRune (r : Nat) : GoString :=
  if r ≤ 0x7F then [byteOf r]
  else if r ≤ 0x7FF then [byteOf (0xC0 + r / 64), byteOf (0x80 + r % 64)]
  else if r > 0x10FFFF ∨ (0xD800 ≤ r ∧ r ≤ 0xDFFF) then [0xEF, 0xBF, 0xBD]
  else if r ≤ 0xFFFF then
    [byteOf (0xE0 + r / 4096), byteOf (0x80 + r / 64 % 64), byteOf (0x80 + r % 64)]
  else
    [byteOf (0xF0 + r / 262144), byteOf (0x80 + r / 4096 % 64),
     byteOf (0x80 + r / 64 % 64), byteOf (0x80 + r % 64)]

/-- A string literal of the source: the UTF-8 bytes of its characters. -/
def goStr (s : String) : GoString :=
  s.toList.flatMap (fun c => EncodeRune c.toNat)

/-- Continuation byte test `locb <= c && c <= hicb`. -/
def isCont (c : Byte) : Bool := 0x80 ≤ c.val && c.val ≤ 0xBF

/-- Go `utf8.DecodeRune`: the first rune of `p` and its width in bytes.  An
empty input gives `(RuneError, 0)`, a malformed encoding `(RuneError, 1)`.
The second-byte ranges are the `acceptRanges` of the `first` table. -/
def DecodeRune : GoString → Nat × Nat
  | [] => (RuneError, 0)
  | p0 :: rest =>
    if p0.val < 0x80 then (p0.val, 1)
    else if p0.val < 0xC2 then (RuneError, 1)
    else if p0.val < 0xE0 then
      match rest with
      | b1 :: _ =>
        if isCont b1 then (p0.val % 32 * 64 + b1.val % 64, 2) else (RuneError, 1)
      | _ => (RuneError, 1)
    else if p0.val < 0xF0 then
      match rest with
      | b1 :: b2 :: _ =>
        let lo := if p0.val = 0xE0 then 0xA0 else 0x80
        let hi := if p0.val = 0xED then 0x9F else 0xBF
        if b1.val < lo ∨ hi < b1.val then (RuneError, 1)
        else if !isCont b2 then (RuneError, 1)
        else (p0.val % 16 * 4096 + b1.val % 64 * 64 + b2.val % 64, 3)
      | _ => (RuneError, 1)
    else if p0.val < 0xF5 then
      match rest with
      | b1 :: b2 :: b3 :: _ =>
        let lo := if p0.val = 0xF0 then 0x90 else 0x80
        let hi := if p0.val = 0xF4 then 0x8F else 0xBF
        if b1.val < lo ∨ hi < b1.val then (RuneError, 1)
        else if !isCont b2 then (RuneError, 1)
        else if !isCont b3 then (RuneError, 1)
        else (p0.val % 8 * 262144 + b1.val % 64 * 4096 + b2.val % 64 * 64 + b3.val % 64, 4)
      | _ => (RuneError, 1)
    else (RuneError, 1)

/-- The loop `for i, r := range s` unrolled: each rune of `s` with the bytes it
was decoded from.  `fuel` bounds the number of runes. -/
def runesAux : Nat → GoString → List (Nat × GoString)
  | 0, _ => []
  | _ + 1, [] => []
  | fuel + 1, p0 :: rest =>
    let d := DecodeRune (p0 :: rest)
    (d.1, (p0 :: rest).take d.2) :: runesAux fuel ((p0 :: rest).drop d.2)

/-- The runes of a string, in order, each with its source bytes. -/
def runes (s : GoString) : List (Nat × GoString) := runesAux s.length s

/-- Go `utf8.Valid`: no position of `p` decodes to a malformed encoding. -/
def utf8Valid (p : GoString) : Bool :=
  (runes p).all (fun x => !(x.1 = RuneError && x.2.length = 1))

/-- Go `utf8.RuneCountInString`: the number of runes, a malformed byte counting
as one. -/
def RuneCount (s : GoString) : Nat := (runes s).length

/-- Go `unicode.IsSpace`. -/
def isSpace (r : Nat) : Bool :=
  r = 0x09 || r = 0x0A || r = 0x0B || r = 0x0C || r = 0x0D || r = 0x20 ||
  r = 0x85 || r = 0xA0 || r = 0x1680 || (0x2000 ≤ r && r ≤ 0x200A) ||
  r = 0x2028 || r = 0x2029 || r = 0x202F || r = 0x205F || r = 0x3000

/-! ## `strings` -/

/-- Go `strings.HasPrefix`. -/
def HasPrefix (s pre : GoString) : Bool := pre.isPrefixOf s

/-- Go `strings.TrimSpace`: `s` without its leading and trailing white-space
runes. -/
def TrimSpace (s : GoString) : GoString :=
  let body := (runes s).dropWhile (fun x => isSpace x.1)
  let kept := (body.reverse.dropWhile (fun x => isSpace x.1)).reverse
  kept.flatMap (fun x => x.2)

/-- The scan of `strings.FieldsFunc`: `cur` is the field being read. -/
def fieldsAux : List (Nat × GoString) → GoString → List GoString
  | [], cur => if cur = [] then [] else [cur]
  | x :: rest, cur =>
    if isSpace x.1 then
      if cur = [] then fieldsAux rest [] else cur :: fieldsAux rest []
    else fieldsAux rest (cur ++ x.2)

/-- Go `strings.Fields`: the maximal runs of non-white-space runes. -/
def Fields (s : GoString) : List GoString := fieldsAux (runes s) []

/-- Position of the first byte equal to `c`, the `strings.Index` of a one-byte
separator; `none` is the result `-1`. -/
def IndexByte (s : GoString) (c : Byte) : Option Nat :=
  let i := s.indexOf c
  if i < s.length then some i else none

/-- The case mappings of `unicode.ToUpper` and `unicode.ToLower` on runes above
U+007F, which come from the Unicode tables. -/
structure CaseTable where
  upper : Nat → Nat
  lower : Nat → Nat

/-- Go `unicode.ToUpper`. -/
def upperRune (T : CaseTable) (r : Nat) : Nat :=
  if r ≤ 0x7F then (if 0x61 ≤ r ∧ r ≤ 0x7A then r - 0x20 else r) else T.upper r

/-- Go `unicode.ToLower`. -/
def lowerRune (T : CaseTable) (r : Nat) : Nat :=
  if r ≤ 0x7F then (if 0x41 ≤ r ∧ r ≤ 0x5A then r + 0x20 else r) else T.lower r

/-- Go `strings.Map`: every rune replaced by the encoding of its image. -/
def mapRunes (f : Nat → Nat) (s : GoString) : GoString :=
  (runes s).flatMap (fun x => EncodeRune (f x.1))

/-- Go `strings.ToUpper`. -/
def ToUpper (T : CaseTable) (s : GoString) : GoString := mapRunes (upperRune T) s

/-- Go `strings.ToLower`. -/
def ToLower (T : CaseTable) (s : GoString) : GoString := mapRunes (lowerRune T) s

/-- A case table that leaves every rune above U+007F unchanged. -/
def plainCase : CaseTable := ⟨fun r => r, fun r => r⟩

/-! ## Request descriptor and `ParseCurlCommand` -/

/-- Go `map[string]string`, as the list of its entries with distinct keys. -/
abbrev StrMap := List (GoString × GoString)

/-- Map assignment `m[k] = v`. -/
def mapSet : StrMap → GoString → GoString → StrMap
  | [], k, v => [(k, v)]
  | (k', v') :: rest, k, v =>
    if k' = k then (k, v) :: rest else (k', v') :: mapSet rest k v

/-- The request descriptor `CurlRequest`. -/
structure CurlRequest where
  URL : GoString
  Method : GoString
  Headers : StrMap
  Body : GoString
  Timeout : Int
  FollowRedirect : Bool
  VerifySSL : Bool
  HeadOnly : Bool
  deriving DecidableEq

/-- The descriptor `ParseCurlCommand` starts from. -/
def defaultRequest : CurlRequest :=
  { URL := [], Method := goStr "GET", Headers := [], Body := [], Timeout := 30,
    FollowRedirect := true, VerifySSL := true, HeadOnly := false }

/-- The `-H` case: store `name: value` split at the first colon when the colon
is not the first byte. -/
def setHeader (req : CurlRequest) (header : GoString) : CurlRequest :=
  match IndexByte header 0x3A with
  | some colonIndex =>
    if colonIndex > 0 then
      { req with Headers := mapSet req.Headers (TrimSpace (header.take colonIndex))
                              (TrimSpace (header.drop (colonIndex + 1))) }
    else req
  | none => req

/-- One iteration of the token loop of `ParseCurlCommand`: `part` is
`parts[i]`, and `next` is `parts[i+1]` when `i+1 < len(parts)`. -/
def parseStep (T : CaseTable) (req : CurlRequest) (part : GoString)
    (next : Option GoString) : CurlRequest :=
  if part = goStr "-I" ∨ part = goStr "--head" then
    { req with Method := goStr "HEAD", HeadOnly := true }
  else if part = goStr "-X" ∨ part = goStr "--request" then
    match next with
    | some m => { req with Method := ToUpper T m }
    | none => req
  else if part = goStr "-H" ∨ part = goStr "--header" then
    match next with
    | some header => setHeader req header
    | none => req
  else if part = goStr "-d" ∨ part = goStr "--data" then
    match next with
    | some body =>
      { req with Body := body,
                 Method := if req.Method = goStr "GET" then goStr "POST" else req.Method }
    | none => req
  else if part = goStr "-k" ∨ part = goStr "--insecure" then
    { req with VerifySSL := false }
  else if part = goStr "-L" ∨ part = goStr "--location" then
    { req with FollowRedirect := true }
  else if HasPrefix part (goStr "http://") ∨ HasPrefix part (goStr "https://") then
    { req with URL := part }
  else if !HasPrefix part (goStr "-") ∧ req.URL = [] then
    { req with URL := part }
  else req

/-- The loop `for i, part := range parts`, every token visited once. -/
def parseLoop (T : CaseTable) : CurlRequest → List GoString → CurlRequest
  | req, [] => req
  | req, part :: rest => parseLoop T (parseStep T req part rest.head?) rest

/-- The tokens `parts` of a command line: trimmed, a leading `curl ` removed,
split at white space. -/
def commandTokens (curlCmd : GoString) : List GoString :=
  let trimmed := TrimSpace curlCmd
  Fields (if HasPrefix trimmed (goStr "curl ") then trimmed.drop 5 else trimmed)

/-- The error of `ParseCurlCommand`. -/
def errNoURL : GoString := goStr "未找到URL"

/-- `ParseCurlCommand`. -/
def ParseCurlCommand (T : CaseTable) (curlCmd : GoString) : Except GoString CurlRequest :=
  let req := parseLoop T defaultRequest (commandTokens curlCmd)
  if req.URL = [] then .error errNoURL else .ok req

/-! ### Notions used to state what the token loop does -/

/-- A token that starts with `http://` or `https://`. -/
def isHTTPToken (t : GoString) : Bool :=
  HasPrefix t (goStr "http://") || HasPrefix t (goStr "https://")

/-- A token that starts with `-`. -/
def isDashToken (t : GoString) : Bool := HasPrefix t (goStr "-")

/-- The `URL` field after one iteration of the token loop on `part`. -/
def urlStep (url part : GoString) : GoString :=
  if isHTTPToken part then part
  else if !isDashToken part ∧ url = [] then part
  else url

/-- A token `-I` or `--head`. -/
def isHeadToken (t : GoString) : Bool := t = goStr "-I" || t = goStr "--head"

/-- A token `-X` or `--request`. -/
def isMethodToken (t : GoString) : Bool := t = goStr "-X" || t = goStr "--request"

/-- The URL the token loop selects: the last token that starts with `http://`
or `https://`, and without one the first token that does not start with `-`. -/
def selectedURL (toks : List GoString) : Option GoString :=
  match (toks.filter isHTTPToken).getLast? with
  | some u => some u
  | none => toks.find? (fun t => !isDashToken t)

/-! ## `fmt` verbs -/

/-- The digits of `n` in the given base, as ASCII bytes (lower-case letters
above nine). -/
def fmtBase (base n : Nat) : GoString :=
  (Nat.toDigits base n).map (fun c => byteOf c.toNat)

/-- Verb `%d` on a non-negative integer. -/
def fmtDec (n : Nat) : GoString := fmtBase 10 n

/-- Verb `%x` on a non-negative integer. -/
def fmtHex (n : Nat) : GoString := fmtBase 16 n

/-- Flag `0` with a width, as in `%02x`: zeros on the left up to `w` bytes. -/
def padZero (w : Nat) (s : GoString) : GoString :=
  List.replicate (w - s.length) 0x30 ++ s

/-- Flag `-` with a width, as in `%-48s`: spaces on the right up to `w`
runes. -/
def padRight (w : Nat) (s : GoString) : GoString :=
  s ++ List.replicate (w - RuneCount s) 0x20

/-! ## Binary classification and preview -/

/-- The prefix list of `isBinaryContent`. -/
def binaryTypes : List GoString :=
  [goStr "image/", goStr "audio/", goStr "video/", goStr "application/octet-stream",
   goStr "application/pdf", goStr "application/zip", goStr "application/gzip",
   goStr "application/x-", goStr "font/", goStr "model/"]

/-- `isBinaryContent`. -/
def isBinaryContent (T : CaseTable) (contentType : GoString) : Bool :=
  binaryTypes.any (fun binaryType => HasPrefix (ToLower T contentType) binaryType)

/-- The category line of `generateBinaryPreview`. -/
def categoryLine (contentType : GoString) : GoString :=
  if HasPrefix contentType (goStr "image/") then goStr "📷 图片文件\n"
  else if HasPrefix contentType (goStr "audio/") then goStr "🎵 音频文件\n"
  else if HasPrefix contentType (goStr "video/") then goStr "🎬 视频文件\n"
  else if HasPrefix contentType (goStr "application/pdf") then goStr "📄 PDF文档\n"
  else if HasPrefix contentType (goStr "application/zip") then goStr "📦 压缩文件\n"
  else goStr "📁 二进制文件\n"

/-- The loop `for j := i; j < end; j++ { hexPart += Sprintf("%02x ", data[j]) }`;
`none` is an index out of range. -/
def hexPart (data : List Byte) (i stop : Nat) : Option GoString :=
  (List.range' i (stop - i)).foldlM
    (fun acc j => data[j]?.map (fun b => acc ++ padZero 2 (fmtHex b.val) ++ goStr " ")) []

/-- The loop building `asciiPart`: the byte itself when it is in 32..126, a dot
otherwise; `none` is an index out of range. -/
def asciiPart (data : List Byte) (i stop : Nat) : Option GoString :=
  (List.range' i (stop - i)).foldlM
    (fun acc j => data[j]?.map (fun b =>
      if b.val ≥ 32 ∧ b.val ≤ 126 then acc ++ [b] else acc ++ goStr ".")) []

/-- One line `Sprintf("%04x: %-48s |%s|\n", i, hexPart, asciiPart)`. -/
def dumpLine (i : Nat) (hex ascii : GoString) : GoString :=
  padZero 4 (fmtHex i) ++ goStr ": " ++ padRight 48 hex ++ goStr " |" ++ ascii ++ goStr "|\n"

/-- The loop `for i := 0; i < maxBytes; i += 16`, started at `i` with the text
`preview` built so far; `fuel` bounds the number of iterations left. -/
def dumpLoop (data : List Byte) (maxBytes : Nat) : Nat → Nat → GoString → Option GoString
  | 0, i, preview => if i < maxBytes then none else some preview
  | fuel + 1, i, preview =>
    if i < maxBytes then
      let stop := if i + 16 > maxBytes then maxBytes else i + 16
      match hexPart data i stop, asciiPart data i stop with
      | some hex, some ascii => dumpLoop data maxBytes fuel (i + 16) (preview ++ dumpLine i hex ascii)
      | _, _ => none
    else some preview

/-- `generateBinaryPreview`; `none` is a run-time panic. -/
def generateBinaryPreview (data : List Byte) (contentType : GoString) : Option GoString :=
  let preview := goStr "Content-Type: " ++ contentType ++ goStr "\n"
  let preview := preview ++ (goStr "Size: " ++ fmtDec data.length ++ goStr " bytes\n\n")
  let preview := preview ++ categoryLine contentType
  let preview := preview ++ goStr "\n十六进制预览 (前64字节):\n"
  let maxBytes := if data.length < 64 then data.length else 64
  match dumpLoop data maxBytes maxBytes 0 preview with
  | none => none
  | some preview => some (if data.length > maxBytes then preview ++ goStr "...\n" else preview)

/-! ### The dump as the specification words it -/

/-- The lower-case hexadecimal digit of a value below 16. -/
def hexDigit (d : Nat) : Byte := byteOf (if d < 10 then 0x30 + d else 0x61 + (d - 10))

/-- A byte in the hex column: its two hexadecimal digits and a space. -/
def specPair (b : Byte) : GoString := [hexDigit (b.val / 16), hexDigit (b.val % 16), 0x20]

/-- A byte in the ASCII column: itself when it is in 0x20..0x7E, a dot
otherwise. -/
def specAscii (b : Byte) : Byte := if 0x20 ≤ b.val ∧ b.val ≤ 0x7E then b else 0x2E

/-- The offset `16k` written with four hexadecimal digits. -/
def specOffset (k : Nat) : GoString :=
  [hexDigit (16 * k / 4096 % 16), hexDigit (16 * k / 256 % 16), hexDigit (16 * k / 16 % 16),
   hexDigit (16 * k % 16)]

/-- The hex column of a line: the pairs of its bytes, padded with spaces to 48
characters. -/
def hexColumn (chunk : List Byte) : GoString :=
  chunk.flatMap specPair ++ List.replicate (48 - 3 * chunk.length) 0x20

/-- Line `k` of the dump, for the bytes `chunk` it shows. -/
def specLine (k : Nat) (chunk : List Byte) : GoString :=
  specOffset k ++ goStr ": " ++ hexColumn chunk ++ goStr " |" ++ chunk.map specAscii ++
    goStr "|\n"

/-- The bytes of line `k`: the `k`-th group of 16 among the first 64 bytes. -/
def dumpChunk (data : List Byte) (k : Nat) : List Byte := ((data.take 64).drop (16 * k)).take 16

/-- The number of dump lines, `ceil(min(n, 64) / 16)`. -/
def dumpLineCount (data : List Byte) : Nat := (min data.length 64 + 15) / 16

/-- The dump: the lines `0 .. dumpLineCount - 1`. -/
def specDump (data : List Byte) : GoString :=
  (List.range (dumpLineCount data)).flatMap (fun k => specLine k (dumpChunk data k))

/-- The text `generateBinaryPreview` puts before the dump. -/
def previewHead (data : List Byte) (contentType : GoString) : GoString :=
  goStr "Content-Type: " ++ contentType ++ goStr "\n" ++
    (goStr "Size: " ++ fmtDec data.length ++ goStr " bytes\n\n") ++ categoryLine contentType ++
    goStr "\n十六进制预览 (前64字节):\n"

/-- The marker appended to a truncated text preview. -/
def truncationMarker : GoString := goStr "\n\n... [内容过长，已截断]"

/-- What the body branch of `Execute` computes. -/
structure BodyView where
  Body : GoString
  BodyPreview : GoString
  IsBinary : Bool
  deriving DecidableEq

/-- The body branch of `Execute` once `io.ReadAll` returned `bodyBytes`;
`none` is a run-time panic. -/
def classifyBody (T : CaseTable) (bodyBytes : List Byte) (contentType : GoString) :
    Option BodyView :=
  let isBinary := !utf8Valid bodyBytes || isBinaryContent T contentType
  if isBinary then
    (generateBinaryPreview bodyBytes contentType).map (fun preview =>
      { Body := goStr "[二进制数据 - " ++ fmtDec bodyBytes.length ++ goStr " 字节]",
        BodyPreview := preview, IsBinary := true })
  else
    some { Body := bodyBytes,
           BodyPreview := if bodyBytes.length > 10000 then bodyBytes.take 10000 ++ truncationMarker
                          else bodyBytes,
           IsBinary := false }

/-! ## `net/url`: what `url.Parse` decides for `Execute` -/

/-- The checks of `url.Parse` on the authority, the path and the fragment
(`parseAuthority`, `setPath`, `setFragment`) and the checks of
`http.NewRequest`; only their verdict matters to `Execute`. -/
structure UrlLib where
  authorityOk : GoString → Bool
  pathOk : GoString → Bool
  fragmentOk : GoString → Bool
  newRequestOk : GoString → GoString → Bool

/-- A library that accepts every authority, path, fragment and request. -/
def laxLib : UrlLib := ⟨fun _ => true, fun _ => true, fun _ => true, fun _ _ => true⟩

/-- The errors of `url.Parse`. -/
inductive UrlError
  /-- Message `net/url: invalid control character in URL`. -/
  | controlCharacter
  /-- Message `missing protocol scheme`. -/
  | missingScheme
  /-- Message `first path segment in URL cannot contain colon`. -/
  | colonInFirstSegment
  /-- An error of `parseAuthority`. -/
  | badAuthority
  /-- An error of `setPath`. -/
  | badPath
  /-- An error of `setFragment`. -/
  | badFragment
  deriving DecidableEq

/-- The fields of `url.URL` that `parse` fills before it looks at the authority
and the path. -/
structure URL where
  Scheme : GoString
  Opaque : GoString
  RawQuery : GoString
  ForceQuery : Bool
  deriving DecidableEq

/-- Go `strings.Cut` with a one-byte separator: the text before the first
separator and the text after it (`s` and the empty string without one). -/
def cut (s : GoString) (sep : Byte) : GoString × GoString :=
  match IndexByte s sep with
  | some i => (s.take i, s.drop (i + 1))
  | none => (s, [])

/-- Go `stringContainsCTLByte`. -/
def containsCTL (s : GoString) : Bool := s.any (fun b => b.val < 0x20 || b.val = 0x7F)

/-- The loop of `getScheme` at index `i`, `rem` being `rawURL[i:]`: the scheme
and the rest of the URL. -/
def getSchemeAux (rawURL : GoString) : Nat → GoString → Except UrlError (GoString × GoString)
  | _, [] => .ok ([], rawURL)
  | i, c :: cs =>
    if (0x61 ≤ c.val ∧ c.val ≤ 0x7A) ∨ (0x41 ≤ c.val ∧ c.val ≤ 0x5A) then
      getSchemeAux rawURL (i + 1) cs
    else if (0x30 ≤ c.val ∧ c.val ≤ 0x39) ∨ c = 0x2B ∨ c = 0x2D ∨ c = 0x2E then
      if i = 0 then .ok ([], rawURL) else getSchemeAux rawURL (i + 1) cs
    else if c = 0x3A then
      if i = 0 then .error .missingScheme else .ok (rawURL.take i, rawURL.drop (i + 1))
    else .ok ([], rawURL)

/-- Go `getScheme`. -/
def getScheme (rawURL : GoString) : Except UrlError (GoString × GoString) :=
  getSchemeAux rawURL 0 rawURL

/-- Go `url.parse(rawURL, false)`. -/
def parse (L : UrlLib) (T : CaseTable) (rawURL : GoString) : Except UrlError URL :=
  if containsCTL rawURL then .error .controlCharacter
  else if rawURL = goStr "*" then
    .ok { Scheme := [], Opaque := [], RawQuery := [], ForceQuery := false }
  else
    match getScheme rawURL with
    | .error e => .error e
    | .ok (scheme, rest) =>
      let scheme := ToLower T scheme
      let force := rest.getLast? = some 0x3F ∧ rest.count 0x3F = 1
      let rawQuery := if force then [] else (cut rest 0x3F).2
      let rest := if force then rest.dropLast else (cut rest 0x3F).1
      let url : URL := { Scheme := scheme, Opaque := [], RawQuery := rawQuery, ForceQuery := force }
      if !HasPrefix rest (goStr "/") ∧ scheme ≠ [] then .ok { url with Opaque := rest }
      else if !HasPrefix rest (goStr "/") ∧ (cut rest 0x2F).1.contains 0x3A then
        .error .colonInFirstSegment
      else if (scheme ≠ [] ∨ !HasPrefix rest (goStr "///")) ∧ HasPrefix rest (goStr "//") then
        let authority := (cut (rest.drop 2) 0x2F).1
        let path := (rest.drop 2).drop authority.length
        if !L.authorityOk authority then .error .badAuthority
        else if !L.pathOk path then .error .badPath
        else .ok url
      else if !L.pathOk rest then .error .badPath
      else .ok url

/-- Go `url.Parse`: the fragment is cut off and checked apart. -/
def urlParse (L : UrlLib) (T : CaseTable) (rawURL : GoString) : Except UrlError URL :=
  match parse L T (cut rawURL 0x23).1 with
  | .error e => .error e
  | .ok url =>
    if (cut rawURL 0x23).2 = [] then .ok url
    else if L.fragmentOk (cut rawURL 0x23).2 then .ok url
    else .error .badFragment

/-! ## `Execute` -/

/-- The errors `Execute` returns. -/
inductive ExecError
  /-- Message `无效的URL: ...`. -/
  | invalidURL (cause : UrlError)
  /-- Message `创建请求失败: ...`. -/
  | createFailed
  /-- Message `请求失败: ...`, with the cause reported by `client.Do`. -/
  | requestFailed (cause : GoString)
  /-- Message `读取响应失败: ...`. -/
  | readFailed (cause : GoString)
  /-- A run-time panic instead of a return. -/
  | panicked
  deriving DecidableEq

/-- The URL validation at the head of `Execute`: the request with a URL that
has a scheme, `https://` being put in front of a URL parsed without one. -/
def checkURL (L : UrlLib) (T : CaseTable) (req : CurlRequest) : Except ExecError CurlRequest :=
  match urlParse L T req.URL with
  | .error e => .error (.invalidURL e)
  | .ok parsedURL =>
    if parsedURL.Scheme = [] then
      match urlParse L T (goStr "https://" ++ req.URL) with
      | .error e => .error (.invalidURL e)
      | .ok _ => .ok { req with URL := goStr "https://" ++ req.URL }
    else .ok req

/-- The step `if req.Method == "HEAD" { req.HeadOnly = true }`. -/
def forceHeadOnly (req : CurlRequest) : CurlRequest :=
  if req.Method = goStr "HEAD" then { req with HeadOnly := true } else req

/-- The defaults `Execute` applies: method `GET`, timeout 30, and `HeadOnly`
forced for the method `HEAD`. -/
def applyDefaults (req : CurlRequest) : CurlRequest :=
  let req := if req.Method = [] then { req with Method := goStr "GET" } else req
  let req := if req.Timeout = 0 then { req with Timeout := 30 } else req
  forceHeadOnly req

/-- The validation and defaulting steps at the head of `Execute`: the request
as it is used from there on. -/
def normalizeRequest (L : UrlLib) (T : CaseTable) (req : CurlRequest) :
    Except ExecError CurlRequest :=
  match checkURL L T req with
  | .error e => .error e
  | .ok req => .ok (applyDefaults req)

/-- An `http.Response` as `Execute` reads it; `Body` is the outcome of
`io.ReadAll(resp.Body)`. -/
structure HttpResponse where
  StatusCode : Nat
  Status : GoString
  ContentType : GoString
  ContentLength : Int
  Body : Except GoString (List Byte)
  deriving DecidableEq

/-- A redirect met by `client.Do`: the redirect response and the URL of the
request that would follow it (`newReq.URL.String()`). -/
structure Hop where
  response : HttpResponse
  target : GoString
  deriving DecidableEq

/-- What the network answers to one call of `client.Do`: the successive
redirects, then a response that is not a redirect or a transport failure. -/
structure Exchange where
  hops : List Hop
  last : Except GoString HttpResponse

/-- The verdict of a `CheckRedirect` function. -/
inductive RedirectVerdict
  /-- Result `nil`: follow the redirect. -/
  | follow
  /-- Result `http.ErrUseLastResponse`. -/
  | useLastResponse
  /-- Any other error. -/
  | refuse (msg : GoString)

/-- The message of the redirect cap. -/
def errTooManyRedirects : GoString := goStr "重定向次数过多"

/-- The `CheckRedirect` function `Execute` installs, applied to the new URL
with `viaLen = len(via)`; the first component is `redirectChain` after the
call. -/
def CheckRedirect (followRedirect : Bool) (redirectChain : List GoString)
    (newURL : GoString) (viaLen : Nat) : List GoString × RedirectVerdict :=
  if !followRedirect then (redirectChain, .useLastResponse)
  else
    let redirectChain := redirectChain ++ [newURL]
    if viaLen ≥ 10 then (redirectChain, .refuse errTooManyRedirects)
    else (redirectChain, .follow)

/-- The redirect loop of `client.Do`: `viaLen` requests have been sent, `hops`
are the redirects still to come.  The result is the response handed back and
`redirectChain`. -/
def clientDo (followRedirect : Bool) :
    List GoString → Nat → List Hop → Except GoString HttpResponse →
    Except GoString (HttpResponse × List GoString)
  | chain, _, [], last =>
    match last with
    | .error cause => .error cause
    | .ok resp => .ok (resp, chain)
  | chain, viaLen, h :: hs, last =>
    match CheckRedirect followRedirect chain h.target viaLen with
    | (chain, .follow) => clientDo followRedirect chain (viaLen + 1) hs last
    | (chain, .useLastResponse) => .ok (h.response, chain)
    | (_, .refuse msg) => .error msg

/-- The fields of `CurlResponse` that depend on the request, the redirects and
the body (the header maps, the timing and `RequestInfo` are left out). -/
structure CurlResponse where
  URL : GoString
  Method : GoString
  StatusCode : Nat
  StatusText : GoString
  Body : GoString
  BodyPreview : GoString
  BodySize : Int
  IsBinary : Bool
  ContentLength : Int
  ContentType : GoString
  RedirectChain : List GoString
  deriving DecidableEq

/-- The placeholder body of a head-only request. -/
def headPlaceholder : GoString := goStr "[HEAD请求 - 仅获取响应头]"

/-- `Execute` from the response on: body reading and the result. -/
def buildResponse (T : CaseTable) (req : CurlRequest) (resp : HttpResponse)
    (redirectChain : List GoString) : Except ExecError CurlResponse :=
  let result (view : BodyView) (bodySize : Int) : CurlResponse :=
    { URL := req.URL, Method := req.Method, StatusCode := resp.StatusCode,
      StatusText := resp.Status, Body := view.Body, BodyPreview := view.BodyPreview,
      BodySize := bodySize, IsBinary := view.IsBinary, ContentLength := resp.ContentLength,
      ContentType := resp.ContentType, RedirectChain := redirectChain }
  if !req.HeadOnly ∧ req.Method ≠ goStr "HEAD" then
    match resp.Body with
    | .error cause => .error (.readFailed cause)
    | .ok bodyBytes =>
      match classifyBody T bodyBytes resp.ContentType with
      | none => .error .panicked
      | some view => .ok (result view bodyBytes.length)
  else
    .ok (result { Body := headPlaceholder, BodyPreview := headPlaceholder, IsBinary := false }
          resp.ContentLength)

/-- `Execute` from the creation of the client on, for a normalised request. -/
def executeRequest (T : CaseTable) (req : CurlRequest) (x : Exchange) :
    Except ExecError CurlResponse :=
  match clientDo req.FollowRedirect [] 1 x.hops x.last with
  | .error cause => .error (.requestFailed cause)
  | .ok (resp, redirectChain) => buildResponse T req resp redirectChain

/-- `Execute`, the network being given by what it answers. -/
def Execute (L : UrlLib) (T : CaseTable) (req : CurlRequest) (x : Exchange) :
    Except ExecError CurlResponse :=
  match normalizeRequest L T req with
  | .error e => .error e
  | .ok req =>
    if L.newRequestOk req.Method req.URL then executeRequest T req x
    else .error .createFailed

/-! ## `dig_service.go` -/

/-- The tables of the DNS library (`dns.StringToType`, `dns.TypeToString`,
`dns.RcodeToString`; a Go map gives the empty string for an absent key) and the
text form the `net` package gives a 16-byte address that is not an IPv4 one. -/
structure DnsLib where
  StringToType : GoString → Option Nat
  TypeToString : Nat → GoString
  RcodeToString : Nat → GoString
  ipv6Text : List Byte → GoString

/-- The header `dns.RR_Header`, with the fields `parseRecord` reads. -/
structure RR_Header where
  Name : GoString
  Rrtype : Nat
  Ttl : Nat
  deriving DecidableEq

/-- A resource record `dns.RR`: the record kinds `parseRecord` tells apart,
each with its fields, and any other kind with its `String()` text. -/
inductive RR
  | A (Hdr : RR_Header) (A : List Byte)
  | AAAA (Hdr : RR_Header) (AAAA : List Byte)
  | CNAME (Hdr : RR_Header) (Target : GoString)
  | MX (Hdr : RR_Header) (Preference : Nat) (Mx : GoString)
  | NS (Hdr : RR_Header) (Ns : GoString)
  | TXT (Hdr : RR_Header) (Txt : List GoString)
  | SOA (Hdr : RR_Header) (Ns Mbox : GoString) (Serial Refresh Retry Expire Minttl : Nat)
  | PTR (Hdr : RR_Header) (Ptr : GoString)
  | SRV (Hdr : RR_Header) (Priority Weight Port : Nat) (Target : GoString)
  | other (Hdr : RR_Header) (text : GoString)

/-- Method `rr.Header()`. -/
def RR.Header : RR → RR_Header
  | .A h _ | .AAAA h _ | .CNAME h _ | .MX h _ _ | .NS h _ | .TXT h _
  | .SOA h _ _ _ _ _ _ _ | .PTR h _ | .SRV h _ _ _ _ | .other h _ => h

/-- Go `net.IP.To4`: the four bytes of an IPv4 address, also when it is given
as a 16-byte IPv4-mapped address. -/
def To4 (ip : List Byte) : Option (List Byte) :=
  if ip.length = 4 then some ip
  else if ip.length = 16 ∧ ip.take 10 = List.replicate 10 0 ∧ (ip.drop 10).take 2 = [0xFF, 0xFF]
  then some (ip.drop 12)
  else none

/-- Go `net.IP.String`. -/
def ipString (D : DnsLib) (ip : List Byte) : GoString :=
  if ip.length = 0 then goStr "<nil>"
  else if ip.length ≠ 4 ∧ ip.length ≠ 16 then
    goStr "?" ++ ip.flatMap (fun b => padZero 2 (fmtHex b.val))
  else
    match To4 ip with
    | some [a, b, c, d] =>
      fmtDec a.val ++ goStr "." ++ fmtDec b.val ++ goStr "." ++ fmtDec c.val ++ goStr "." ++
        fmtDec d.val
    | _ => D.ipv6Text ip

/-- Go `strings.Join`. -/
def Join : List GoString → GoString → GoString
  | [], _ => []
  | [a], _ => a
  | a :: rest, sep => a ++ sep ++ Join rest sep

/-- The record `DNSRecord`. -/
structure DNSRecord where
  Name : GoString
  Type_ : GoString
  TTL : Nat
  Value : GoString
  deriving DecidableEq

/-- `parseRecord`; the result is a pointer, `none` being `nil`. -/
def parseRecord (D : DnsLib) (rr : RR) : Option DNSRecord :=
  let header := rr.Header
  let record (value : GoString) : DNSRecord :=
    { Name := header.Name, Type_ := D.TypeToString header.Rrtype, TTL := header.Ttl,
      Value := value }
  match rr with
  | .A _ a => some (record (ipString D a))
  | .AAAA _ a => some (record (ipString D a))
  | .CNAME _ target => some (record target)
  | .MX _ preference mx => some (record (fmtDec preference ++ goStr " " ++ mx))
  | .NS _ ns => some (record ns)
  | .TXT _ txt => some (record (Join txt (goStr " ")))
  | .SOA _ ns mbox serial refresh retry expire minttl =>
    some (record (ns ++ goStr " " ++ mbox ++ goStr " " ++ fmtDec serial ++ goStr " " ++
      fmtDec refresh ++ goStr " " ++ fmtDec retry ++ goStr " " ++ fmtDec expire ++ goStr " " ++
      fmtDec minttl))
  | .PTR _ ptr => some (record ptr)
  | .SRV _ priority weight port target =>
    some (record (fmtDec priority ++ goStr " " ++ fmtDec weight ++ goStr " " ++ fmtDec port ++
      goStr " " ++ target))
  | .other _ text => some (record text)

/-- The reply `dns.Msg` of the resolver: response code and answer section. -/
structure Msg where
  Rcode : Nat
  Answer : List RR

/-- The errors `Query` returns. -/
inductive DigError
  /-- Message `不支持的记录类型: ...`. -/
  | unsupportedType (recordType : GoString)
  /-- Message `DNS查询失败: ...`. -/
  | queryFailed (cause : GoString)
  /-- Message `DNS查询返回错误代码: ...`. -/
  | rcodeError (name : GoString)
  deriving DecidableEq

/-- The loop over `response.Answer`, `records` being the slice built so far. -/
def answerLoop (D : DnsLib) : List DNSRecord → List RR → List DNSRecord
  | records, [] => records
  | records, rr :: rest =>
    match parseRecord D rr with
    | some record => answerLoop D (records ++ [record]) rest
    | none => answerLoop D records rest

/-- `Query`; `exchange` is `client.ExchangeContext`, asked with the domain, the
query type and the server. -/
def Query (D : DnsLib) (T : CaseTable)
    (exchange : GoString → Nat → GoString → Except GoString Msg)
    (domain recordType server : GoString) : Except DigError (List DNSRecord) :=
  match D.StringToType (ToUpper T recordType) with
  | none => .error (.unsupportedType recordType)
  | some qtype =>
    match exchange domain qtype server with
    | .error cause => .error (.queryFailed cause)
    | .ok response =>
      if response.Rcode ≠ 0 then .error (.rcodeError (D.RcodeToString response.Rcode))
      else .ok (answerLoop D [] response.Answer)

/-! ### The record shapes as the specification words them -/

/-- The dotted-quad text of an IPv4 address. -/
def dottedQuad (a b c d : Byte) : GoString :=
  fmtDec a.val ++ goStr "." ++ fmtDec b.val ++ goStr "." ++ fmtDec c.val ++ goStr "." ++
    fmtDec d.val

/-- The value of a record: the address string for A and AAAA, the target name
for CNAME, NS and PTR, preference and exchange for MX, the strings joined by a
space for TXT, the seven SOA fields, the four SRV fields, and the generic text
for any other kind. -/
def specValue (D : DnsLib) : RR → GoString
  | .A _ a => ipString D a
  | .AAAA _ a => ipString D a
  | .CNAME _ target => target
  | .NS _ ns => ns
  | .PTR _ ptr => ptr
  | .MX _ preference mx => List.intercalate (goStr " ") [fmtDec preference, mx]
  | .TXT _ txt => List.intercalate (goStr " ") txt
  | .SOA _ ns mbox serial refresh retry expire minttl =>
    List.intercalate (goStr " ")
      [ns, mbox, fmtDec serial, fmtDec refresh, fmtDec retry, fmtDec expire, fmtDec minttl]
  | .SRV _ priority weight port target =>
    List.intercalate (goStr " ") [fmtDec priority, fmtDec weight, fmtDec port, target]
  | .other _ text => text

/-- The record a resource record is normalised to. -/
def specRecord (D : DnsLib) (rr : RR) : DNSRecord :=
  { Name := rr.Header.Name, Type_ := D.TypeToString rr.Header.Rrtype, TTL := rr.Header.Ttl,
    Value := specValue D rr }

/-! ## Sample inputs -/

/-- A `302` response with an empty body. -/
def found302 : HttpResponse :=
  { StatusCode := 302, Status := goStr "302 Found", ContentType := [], ContentLength := 0,
    Body := .ok [] }

/-- A `200` response with the text body `ok`. -/
def ok200 : HttpResponse :=
  { StatusCode := 200, Status := goStr "200 OK", ContentType := goStr "text/plain",
    ContentLength := 2, Body := .ok (goStr "ok") }

/-- A chain of `n` redirects to the URLs `http://h/0`, `http://h/1`, ...,
ended by `ok200`. -/
def redirectChainOf (n : Nat) : Exchange :=
  { hops := (List.range n).map (fun i => ⟨found302, goStr "http://h/" ++ fmtDec i⟩),
    last := .ok ok200 }

/-- A `200` response that serves the four bytes `89 50 4E 47` as `image/png`. -/
def pngResponse : HttpResponse :=
  { StatusCode := 200, Status := goStr "200 OK", ContentType := goStr "image/png",
    ContentLength := 4, Body := .ok [0x89, 0x50, 0x4E, 0x47] }

/-- A text of 10,000 characters in 10,001 bytes: 9,999 letters `a` and one
`é`, which takes two bytes. -/
def longText : List Byte := List.replicate 9999 0x61 ++ [0xC3, 0xA9]

/-- A `200` response that serves `longText` as `text/plain`. -/
def longTextResponse : HttpResponse :=
  { StatusCode := 200, Status := goStr "200 OK", ContentType := goStr "text/plain",
    ContentLength := 10001, Body := .ok longText }

/-- A DNS library that knows the type `A` only and writes every IPv6 address
as `::`. -/
def sampleDns : DnsLib :=
  { StringToType := fun s => if s = goStr "A" then some 1 else none,
    TypeToString := fun t => if t = 1 then goStr "A" else [],
    RcodeToString := fun _ => [],
    ipv6Text := fun _ => goStr "::" }

/-- A resolver that answers every question with one A record for
`example.com.`, address 93.184.216.34. -/
def sampleExchange (_domain : GoString) (_qtype : Nat) (_server : GoString) :
    Except GoString Msg :=
  .ok { Rcode := 0, Answer := [.A ⟨goStr "example.com.", 1, 300⟩ [93, 184, 216, 34]] }

/-! ## Theorems -/

/-! ### UTF-8 decoding -/
theorem DecodeRune_width (p0 : Byte) (rest : GoString) :
    1 ≤ (DecodeRune (p0 :: rest)).2 ∧ (DecodeRune (p0 :: rest)).2 ≤ (p0 :: rest).length := by
  rcases rest with _ | ⟨b1, _ | ⟨b2, _ | ⟨b3, tail⟩⟩⟩ <;>
    simp only [DecodeRune] <;> split_ifs <;> simp

theorem runesAux_cover (fuel : Nat) :
    ∀ s : GoString, s.length ≤ fuel → (runesAux fuel s).flatMap (fun x => x.2) = s := by
  induction fuel with
  | zero =>
    intro s h
    have : s = [] := List.eq_nil_of_length_eq_zero (by omega)
    subst this
    rfl
  | succ fuel ih =>
    intro s h
    cases s with
    | nil => rfl
    | cons p0 rest =>
      have hw := DecodeRune_width p0 rest
      unfold runesAux
      simp only [List.flatMap_cons]
      rw [ih _ (by rw [List.length_drop]; simp only [List.length_cons] at h hw ⊢; omega)]
      exact List.take_append_drop _ _

/-- The runes of a string cover it: the decoding loop never stops early. -/
theorem runes_cover (s : GoString) : (runes s).flatMap (fun x => x.2) = s :=
  runesAux_cover _ s (le_refl _)

/-! ### The token loop of `ParseCurlCommand` -/
theorem fieldsAux_ne_nil (segs : List (Nat × GoString)) :
    ∀ cur, ∀ t ∈ fieldsAux segs cur, t ≠ [] := by
  induction segs with
  | nil =>
    intro cur t ht
    unfold fieldsAux at ht
    split at ht
    · simp at ht
    · simp at ht; subst ht; assumption
  | cons x rest ih =>
    intro cur t ht
    unfold fieldsAux at ht
    split at ht
    · split at ht
      · exact ih [] t ht
      · rcases List.mem_cons.mp ht with h | h
        · subst h; assumption
        · exact ih [] t h
    · exact ih _ t ht

theorem commandTokens_ne_nil (cmd : GoString) : ∀ t ∈ commandTokens cmd, t ≠ [] := by
  intro t ht
  exact fieldsAux_ne_nil _ _ t ht

theorem setHeader_URL (req : CurlRequest) (h : GoString) : (setHeader req h).URL = req.URL := by
  unfold setHeader
  split
  · split <;> rfl
  · rfl

theorem parseStep_URL (T : CaseTable) (req : CurlRequest) (part : GoString)
    (next : Option GoString) : (parseStep T req part next).URL = urlStep req.URL part := by
  unfold parseStep urlStep isHTTPToken isDashToken
  split
  · rename_i h; rcases h with rfl | rfl <;> rfl
  split
  · rename_i h; rcases h with rfl | rfl <;> cases next <;> rfl
  split
  · rename_i h; rcases h with rfl | rfl <;> cases next <;> simp [setHeader_URL] <;> rfl
  split
  · rename_i h; rcases h with rfl | rfl <;> cases next <;> rfl
  split
  · rename_i h; rcases h with rfl | rfl <;> rfl
  split
  · rename_i h; rcases h with rfl | rfl <;> rfl
  split
  · rename_i h
    have : (HasPrefix part (goStr "http://") || HasPrefix part (goStr "https://")) = true := by
      simpa using h
    simp [this]
  · rename_i h
    have : (HasPrefix part (goStr "http://") || HasPrefix part (goStr "https://")) = false := by
      simpa using h
    simp only [this]
    split <;> simp_all

theorem parseLoop_URL (T : CaseTable) (toks : List GoString) :
    ∀ req, (parseLoop T req toks).URL = toks.foldl urlStep req.URL := by
  induction toks with
  | nil => intro req; rfl
  | cons t ts ih => intro req; simp [parseLoop, ih, parseStep_URL]

theorem foldl_urlStep (toks : List GoString) :
    ∀ u, (∀ t ∈ toks, t ≠ []) →
      toks.foldl urlStep u =
        match (toks.filter isHTTPToken).getLast? with
        | some h => h
        | none => if u = [] then (toks.find? (fun t => !isDashToken t)).getD [] else u := by
  induction toks with
  | nil => intro u _; by_cases hu : u = [] <;> simp [hu]
  | cons t ts ih =>
    intro u hne
    have ht : t ≠ [] := hne t (List.mem_cons_self _ _)
    have hts : ∀ x ∈ ts, x ≠ [] := fun x hx => hne x (List.mem_cons_of_mem _ hx)
    rw [List.foldl_cons, ih _ hts]
    by_cases hh : isHTTPToken t = true
    · have hstep : urlStep u t = t := by simp [urlStep, hh]
      rw [hstep, List.filter_cons_of_pos hh]
      rw [List.getLast?_cons]
      cases hl : (ts.filter isHTTPToken).getLast? <;> simp [ht]
    · have hh2 : isHTTPToken t = false := by simpa using hh
      rw [List.filter_cons_of_neg hh]
      cases hl : (ts.filter isHTTPToken).getLast? with
      | some h => rfl
      | none =>
        simp only
        by_cases hd : isDashToken t = true
        · have hstep : urlStep u t = u := by simp [urlStep, hh2, hd]
          rw [hstep]
          simp [List.find?_cons, hd]
        · have hd2 : isDashToken t = false := by simpa using hd
          by_cases hu : u = []
          · have hstep : urlStep u t = t := by simp [urlStep, hh2, hd2, hu]
            rw [hstep]
            simp [List.find?_cons, hd2, hu, ht]
          · have hstep : urlStep u t = u := by simp [urlStep, hh2, hd2, hu]
            rw [hstep]
            simp [hu]

theorem parseLoop_selectedURL (T : CaseTable) (toks : List GoString)
    (hne : ∀ t ∈ toks, t ≠ []) :
    (selectedURL toks = none ∧ (parseLoop T defaultRequest toks).URL = []) ∨
    (selectedURL toks = some (parseLoop T defaultRequest toks).URL ∧
      (parseLoop T defaultRequest toks).URL ≠ []) := by
  rw [parseLoop_URL, foldl_urlStep toks _ hne]
  unfold selectedURL
  cases hl : (toks.filter isHTTPToken).getLast? with
  | some h =>
    right
    have hmem : h ∈ toks.filter isHTTPToken := List.mem_of_getLast?_eq_some hl
    exact ⟨rfl, hne h (List.mem_of_mem_filter hmem)⟩
  | none =>
    have hd : defaultRequest.URL = [] := rfl
    simp only [hd, if_true]
    cases hf : toks.find? (fun t => !isDashToken t) with
    | none => left; simp
    | some t =>
      right
      have hmem : t ∈ toks := List.mem_of_find?_eq_some hf
      exact ⟨rfl, hne t hmem⟩

/-- C5 (amended): the URL returned by `ParseCurlCommand` is the last token that
starts with `http://` or `https://` when the command has such a token, and
otherwise the first token that does not start with `-`; without any such token
no request is returned. -/
theorem ParseCurlCommand_URL (T : CaseTable) (cmd : GoString) :
    (ParseCurlCommand T cmd).toOption.map CurlRequest.URL = selectedURL (commandTokens cmd) := by
  unfold ParseCurlCommand
  rcases parseLoop_selectedURL T (commandTokens cmd) (commandTokens_ne_nil cmd) with ⟨h1, h2⟩ | ⟨h1, h2⟩
  · simp [h1, h2, Except.toOption]
  · simp [h1, h2, Except.toOption]

theorem goStr_dash : goStr "-" = [0x2D] := by decide

theorem goStr_http : goStr "http://" = [0x68, 0x74, 0x74, 0x70, 0x3A, 0x2F, 0x2F] := by decide

theorem goStr_https : goStr "https://" = [0x68, 0x74, 0x74, 0x70, 0x73, 0x3A, 0x2F, 0x2F] := by
  decide

theorem isHTTPToken_not_dash (t : GoString) (h : isHTTPToken t = true) :
    isDashToken t = false := by
  rw [isHTTPToken, HasPrefix, HasPrefix, goStr_http, goStr_https] at h
  rw [isDashToken, HasPrefix, goStr_dash]
  cases t with
  | nil => simp at h
  | cons b bs =>
    simp only [List.isPrefixOf, Bool.or_eq_true, Bool.and_eq_true, beq_iff_eq] at h
    have hb : b = 0x68 := by rcases h with h | h <;> exact h.1.symm
    subst hb
    simp [List.isPrefixOf]

/-- C6 (amended): `ParseCurlCommand` fails with the missing-URL error exactly
when every token of the command starts with `-`. -/
theorem ParseCurlCommand_missing_URL (T : CaseTable) (cmd : GoString) :
    ParseCurlCommand T cmd = .error errNoURL ↔
      ∀ t ∈ commandTokens cmd, HasPrefix t (goStr "-") = true := by
  unfold ParseCurlCommand
  rcases parseLoop_selectedURL T (commandTokens cmd) (commandTokens_ne_nil cmd) with ⟨h1, h2⟩ | ⟨h1, h2⟩
  · simp only [h2, if_true, true_iff]
    unfold selectedURL at h1
    split at h1
    · exact absurd h1 (by simp)
    · intro t ht
      have := (List.find?_eq_none.mp h1) t ht
      simpa [isDashToken] using this
  · simp only [h2, if_false]
    constructor
    · intro h; cases h
    · intro hall
      exfalso
      unfold selectedURL at h1
      split at h1
      · rename_i u hl
        have hmem : u ∈ (commandTokens cmd).filter isHTTPToken := List.mem_of_getLast?_eq_some hl
        have hu := List.mem_filter.mp hmem
        have := isHTTPToken_not_dash u hu.2
        have h3 := hall u hu.1
        simp [isDashToken] at this
        simp [this] at h3
      · have hmem := List.mem_of_find?_eq_some h1
        have hp := List.find?_some h1
        have h3 := hall _ hmem
        simp [isDashToken, h3] at hp


/-- C1 (amended): the command of the specification parses to method `POST`,
URL `https://example.com`, body `'hi'` with its quote characters, and the
single header whose key is `"X-Test` and whose value is empty. -/
theorem ParseCurlCommand_example (T : CaseTable) :
    ParseCurlCommand T (goStr "curl -X POST -H \"X-Test: 1\" -d 'hi' https://example.com") =
      .ok { URL := goStr "https://example.com", Method := goStr "POST",
            Headers := [(goStr "\"X-Test", goStr "")], Body := goStr "'hi'", Timeout := 30,
            FollowRedirect := true, VerifySSL := true, HeadOnly := false } := rfl

/-- C1 (as stated) fails: the request parsed from the command of the
specification has no header `X-Test` with value `1`, and its body is not
`hi`. -/
theorem ParseCurlCommand_example_counterexample :
    ∃ r, ParseCurlCommand plainCase
          (goStr "curl -X POST -H \"X-Test: 1\" -d 'hi' https://example.com") = .ok r ∧
      (goStr "X-Test", goStr "1") ∉ r.Headers ∧ r.Body ≠ goStr "hi" :=
  ⟨_, rfl, by decide, by decide⟩

/-- C5 (as stated) fails: with two `http` tokens the returned URL is the second
one, not the first. -/
theorem ParseCurlCommand_URL_counterexample :
    commandTokens (goStr "curl http://a http://b") = [goStr "http://a", goStr "http://b"] ∧
    (ParseCurlCommand plainCase (goStr "curl http://a http://b")).toOption.map CurlRequest.URL
      = some (goStr "http://b") ∧
    goStr "http://b" ≠ goStr "http://a" := by
  decide

/-- C6 (as stated) fails: `curl -X POST` has only an option and its argument,
and it parses to a request whose URL is `POST`. -/
theorem ParseCurlCommand_missing_URL_counterexample :
    commandTokens (goStr "curl -X POST") = [goStr "-X", goStr "POST"] ∧
    ParseCurlCommand plainCase (goStr "curl -X POST") =
      .ok { defaultRequest with URL := goStr "POST", Method := goStr "POST" } := by
  decide

theorem setHeader_Method_HeadOnly (req : CurlRequest) (h : GoString) :
    (setHeader req h).Method = req.Method ∧ (setHeader req h).HeadOnly = req.HeadOnly := by
  unfold setHeader
  split
  · split <;> exact ⟨rfl, rfl⟩
  · exact ⟨rfl, rfl⟩

theorem parseStep_HeadOnly (T : CaseTable) (req : CurlRequest) (part : GoString)
    (next : Option GoString) :
    (parseStep T req part next).HeadOnly = (req.HeadOnly || isHeadToken part) := by
  unfold parseStep isHeadToken
  split
  · rename_i h; rcases h with rfl | rfl <;> simp
  · rename_i h
    have hh : (decide (part = goStr "-I") || decide (part = goStr "--head")) = false := by
      simpa using h
    rw [hh, Bool.or_false]
    split
    · cases next <;> rfl
    split
    · cases next
      · rfl
      · exact (setHeader_Method_HeadOnly _ _).2
    split
    · cases next <;> rfl
    split
    · rfl
    split
    · rfl
    split
    · rfl
    split <;> rfl

theorem parseLoop_HeadOnly (T : CaseTable) (toks : List GoString) :
    ∀ req, (parseLoop T req toks).HeadOnly = (req.HeadOnly || toks.any isHeadToken) := by
  induction toks with
  | nil => intro req; simp [parseLoop]
  | cons t ts ih =>
    intro req
    simp [parseLoop, ih, parseStep_HeadOnly, Bool.or_assoc]

theorem parseStep_head_invariant (T : CaseTable) (req : CurlRequest) (part : GoString)
    (next : Option GoString) (hpart : isMethodToken part = false)
    (hinv : req.Method = goStr "HEAD" → req.HeadOnly = true) :
    (parseStep T req part next).Method = goStr "HEAD" →
      (parseStep T req part next).HeadOnly = true := by
  have hx : ¬ (part = goStr "-X" ∨ part = goStr "--request") := by
    simpa [isMethodToken] using hpart
  unfold parseStep
  split
  · intro _; rfl
  split
  · cases next
    · exact hinv
    · rw [(setHeader_Method_HeadOnly _ _).1, (setHeader_Method_HeadOnly _ _).2]; exact hinv
  split
  · cases next
    · exact hinv
    · simp only
      split
      · intro h; exact absurd h (by decide)
      · exact hinv
  split
  · exact hinv
  split
  · exact hinv
  split
  · exact hinv
  split <;> exact hinv

theorem parseLoop_head_invariant (T : CaseTable) (toks : List GoString) :
    ∀ req, (∀ t ∈ toks, isMethodToken t = false) →
      (req.Method = goStr "HEAD" → req.HeadOnly = true) →
      (parseLoop T req toks).Method = goStr "HEAD" → (parseLoop T req toks).HeadOnly = true := by
  induction toks with
  | nil => intro req _ hinv; exact hinv
  | cons t ts ih =>
    intro req hall hinv
    exact ih _ (fun x hx => hall x (List.mem_cons_of_mem _ hx))
      (parseStep_head_invariant T req t _ (hall t (List.mem_cons_self _ _)) hinv)

theorem forceHeadOnly_head (req : CurlRequest) :
    (forceHeadOnly req).Method = goStr "HEAD" → (forceHeadOnly req).HeadOnly = true := by
  unfold forceHeadOnly
  split
  · intro _; rfl
  · rename_i hne; intro hm; exact absurd hm hne

theorem applyDefaults_head (req : CurlRequest) :
    (applyDefaults req).Method = goStr "HEAD" → (applyDefaults req).HeadOnly = true :=
  forceHeadOnly_head _

theorem normalizeRequest_head (L : UrlLib) (T : CaseTable) (req r : CurlRequest)
    (h : normalizeRequest L T req = .ok r) : r.Method = goStr "HEAD" → r.HeadOnly = true := by
  unfold normalizeRequest at h
  split at h
  · cases h
  · injection h with h
    subst h
    exact applyDefaults_head _

/-- C9 (amended): a request returned by `ParseCurlCommand` has `HeadOnly` set
exactly when one of the tokens is `-I` or `--head`; it satisfies
`Method = "HEAD"` implies `HeadOnly` when no token is `-X` or `--request`; and
whatever the command, the request satisfies the implication once the
normalisation at the head of `Execute` has run. -/
theorem ParseCurlCommand_head (L : UrlLib) (T : CaseTable) (cmd : GoString) (r : CurlRequest)
    (h : ParseCurlCommand T cmd = .ok r) :
    (r.HeadOnly = (commandTokens cmd).any isHeadToken) ∧
    ((∀ t ∈ commandTokens cmd, isMethodToken t = false) →
      r.Method = goStr "HEAD" → r.HeadOnly = true) ∧
    (∀ n, normalizeRequest L T r = .ok n → n.Method = goStr "HEAD" → n.HeadOnly = true) := by
  have hr : r = parseLoop T defaultRequest (commandTokens cmd) := by
    unfold ParseCurlCommand at h
    dsimp only at h
    split at h
    · cases h
    · injection h with h; exact h.symm
  refine ⟨?_, ?_, fun n hn => normalizeRequest_head L T r n hn⟩
  · rw [hr, parseLoop_HeadOnly]; rfl
  · intro hall
    rw [hr]
    exact parseLoop_head_invariant T _ _ hall (fun hm => absurd hm (by decide))

/-- C9 witness: `curl -I http://a`. -/
theorem ParseCurlCommand_head_witness :
    ParseCurlCommand plainCase (goStr "curl -I http://a") =
      .ok { defaultRequest with URL := goStr "http://a", Method := goStr "HEAD", HeadOnly := true } ∧
    ((true = (commandTokens (goStr "curl -I http://a")).any isHeadToken) ∧
    ((∀ t ∈ commandTokens (goStr "curl -I http://a"), isMethodToken t = false) →
      goStr "HEAD" = goStr "HEAD" → true = true) ∧
    (∀ n, normalizeRequest laxLib plainCase
        { defaultRequest with URL := goStr "http://a", Method := goStr "HEAD", HeadOnly := true } = .ok n →
      n.Method = goStr "HEAD" → n.HeadOnly = true)) :=
  ⟨by decide, ParseCurlCommand_head laxLib plainCase (goStr "curl -I http://a")
    { defaultRequest with URL := goStr "http://a", Method := goStr "HEAD", HeadOnly := true }
    (by decide)⟩

/-- C9 (as stated) fails: `curl -X HEAD http://a` parses to a request with
method `HEAD` and `HeadOnly = false`. -/
theorem ParseCurlCommand_head_counterexample :
    ∃ r, ParseCurlCommand plainCase (goStr "curl -X HEAD http://a") = .ok r ∧
      r.Method = goStr "HEAD" ∧ r.HeadOnly = false :=
  ⟨_, rfl, by decide, by decide⟩

/-! ### The redirect cap -/
theorem clientDo_follow (hops : List Hop) (last : Except GoString HttpResponse) :
    ∀ (chain : List GoString) (viaLen : Nat), 1 ≤ viaLen → viaLen ≤ 10 →
      clientDo true chain viaLen hops last =
        if viaLen + hops.length ≤ 10 then
          (match last with
           | .error cause => .error cause
           | .ok resp => .ok (resp, chain ++ hops.map Hop.target))
        else .error errTooManyRedirects := by
  induction hops with
  | nil =>
    intro chain viaLen _ hv
    unfold clientDo
    simp [hv]
  | cons h hs ih =>
    intro chain viaLen h1 h10
    unfold clientDo CheckRedirect
    by_cases hv : viaLen ≥ 10
    · have h2 : ¬ (viaLen + (hs.length + 1) ≤ 10) := by omega
      simp [hv, h2]
    · have h3 : (viaLen + 1 + hs.length ≤ 10) ↔ (viaLen + (hs.length + 1) ≤ 10) := by omega
      simp only [hv]
      simp only [Bool.not_true, Bool.false_eq_true, if_false]
      rw [ih _ _ (by omega) (by omega)]
      simp [h3]

theorem buildResponse_chain (T : CaseTable) (req : CurlRequest) (resp : HttpResponse)
    (chain : List GoString) (r : CurlResponse) (h : buildResponse T req resp chain = .ok r) :
    r.RedirectChain = chain := by
  unfold buildResponse at h
  simp only at h
  split at h
  · split at h
    · cases h
    · split at h
      · cases h
      · injection h with h; subst h; rfl
  · injection h with h; subst h; rfl

/-- C2 (amended): with `FollowRedirect = true`, a chain of at most 9 redirects
is followed to the end and the result is built from the final response with
`RedirectChain` equal to the redirect targets in the order visited; a chain of
10 or more redirects makes the call fail with the too-many-redirects error. -/
theorem Execute_redirect_cap (T : CaseTable) (req : CurlRequest) (x : Exchange)
    (hf : req.FollowRedirect = true) :
    executeRequest T req x =
      (if x.hops.length ≤ 9 then
        match x.last with
        | .error cause => .error (.requestFailed cause)
        | .ok resp => buildResponse T req resp (x.hops.map Hop.target)
      else .error (.requestFailed errTooManyRedirects)) ∧
    (∀ resp r, buildResponse T req resp (x.hops.map Hop.target) = .ok r →
      r.RedirectChain = x.hops.map Hop.target ∧ r.RedirectChain.length = x.hops.length) := by
  constructor
  · unfold executeRequest
    rw [hf, clientDo_follow _ _ _ _ (le_refl 1) (by decide)]
    have h3 : (1 + x.hops.length ≤ 10) ↔ (x.hops.length ≤ 9) := by omega
    simp only [h3]
    by_cases h9 : x.hops.length ≤ 9
    · simp only [h9, if_true]
      cases x.last <;> simp
    · simp only [h9, if_false]
  · intro resp r h
    have := buildResponse_chain T req resp _ r h
    rw [this]
    exact ⟨rfl, by simp⟩

/-- C2 witness: a chain of two redirects. -/
theorem Execute_redirect_cap_witness :
    ({ defaultRequest with URL := goStr "http://h/" } : CurlRequest).FollowRedirect = true ∧
    executeRequest plainCase { defaultRequest with URL := goStr "http://h/" } (redirectChainOf 2) =
      .ok { URL := goStr "http://h/", Method := goStr "GET", StatusCode := 200,
            StatusText := goStr "200 OK", Body := goStr "ok", BodyPreview := goStr "ok",
            BodySize := 2, IsBinary := false, ContentLength := 2,
            ContentType := goStr "text/plain",
            RedirectChain := [goStr "http://h/0", goStr "http://h/1"] } := by
  refine ⟨rfl, ?_⟩
  rw [(Execute_redirect_cap plainCase _ (redirectChainOf 2) rfl).1]
  decide

/-- C2 (as stated) fails: a chain of exactly 10 redirects is not followed to
the end, the call fails with the too-many-redirects error. -/
theorem Execute_redirect_cap_counterexample :
    (redirectChainOf 10).hops.length = 10 ∧
    ({ defaultRequest with URL := goStr "http://h/" } : CurlRequest).FollowRedirect = true ∧
    executeRequest plainCase { defaultRequest with URL := goStr "http://h/" } (redirectChainOf 10) =
      .error (.requestFailed errTooManyRedirects) := by
  decide

/-! ### The hex dump -/

set_option maxRecDepth 100000 in
theorem codePair_eq : ∀ b : Byte, padZero 2 (fmtHex b.val) ++ goStr " " = specPair b := by
  decide

theorem codeOffset_eq : ∀ k : Fin 4, padZero 4 (fmtHex (16 * k.val)) = specOffset k.val := by
  decide

theorem DecodeRune_ascii (b : Byte) (rest : GoString) (hb : b.val < 0x80) :
    DecodeRune (b :: rest) = (b.val, 1) := by
  simp [DecodeRune, hb]

theorem runesAux_ascii (s : GoString) (hs : ∀ b ∈ s, b.val < 0x80) :
    ∀ fuel, s.length ≤ fuel → runesAux fuel s = s.map (fun b => (b.val, [b])) := by
  induction s with
  | nil => intro fuel _; cases fuel <;> rfl
  | cons b rest ih =>
    intro fuel hf
    cases fuel with
    | zero => simp at hf
    | succ fuel =>
      have hb : b.val < 0x80 := hs b (List.mem_cons_self _ _)
      have hrest : ∀ x ∈ rest, x.val < 0x80 := fun x hx => hs x (List.mem_cons_of_mem _ hx)
      simp only [runesAux, DecodeRune_ascii b rest hb, List.map_cons]
      simp only [List.take, List.drop]
      rw [ih hrest fuel (by simpa using hf)]

theorem runes_ascii (s : GoString) (hs : ∀ b ∈ s, b.val < 0x80) :
    runes s = s.map (fun b => (b.val, [b])) :=
  runesAux_ascii s hs _ (le_refl _)

theorem RuneCount_ascii (s : GoString) (hs : ∀ b ∈ s, b.val < 0x80) : RuneCount s = s.length := by
  simp [RuneCount, runes_ascii s hs]

theorem hexDigit_ascii : ∀ d : Fin 16, (hexDigit d.val).val < 0x80 := by decide

theorem specPair_ascii (b : Byte) : ∀ c ∈ specPair b, c.val < 0x80 := by
  intro c hc
  have h1 : b.val / 16 < 16 := by have := b.isLt; omega
  have h2 : b.val % 16 < 16 := Nat.mod_lt _ (by decide)
  simp only [specPair, List.mem_cons, List.mem_singleton, List.mem_nil_iff, or_false] at hc
  rcases hc with rfl | rfl | rfl
  · exact hexDigit_ascii ⟨_, h1⟩
  · exact hexDigit_ascii ⟨_, h2⟩
  · decide

theorem flatMap_specPair_ascii (chunk : List Byte) : ∀ c ∈ chunk.flatMap specPair, c.val < 0x80 := by
  intro c hc
  rcases List.mem_flatMap.mp hc with ⟨b, _, hb⟩
  exact specPair_ascii b c hb

theorem length_flatMap_specPair (chunk : List Byte) :
    (chunk.flatMap specPair).length = 3 * chunk.length := by
  induction chunk with
  | nil => rfl
  | cons b rest ih => simp [List.flatMap_cons, ih, specPair]; omega

theorem padRight_hex (chunk : List Byte) :
    padRight 48 (chunk.flatMap specPair) = hexColumn chunk := by
  unfold padRight hexColumn
  rw [RuneCount_ascii _ (flatMap_specPair_ascii chunk), length_flatMap_specPair]

theorem foldlM_index (data : List Byte) (g : Byte → GoString) :
    ∀ (n i : Nat) (acc : GoString), i + n ≤ data.length →
      (List.range' i n).foldlM (fun acc j => data[j]?.map (fun b => acc ++ g b)) acc =
        some (acc ++ ((data.drop i).take n).flatMap g) := by
  intro n
  induction n with
  | zero => intro i acc _; simp
  | succ n ih =>
    intro i acc h
    have hi : i < data.length := by omega
    rw [List.range'_succ, List.foldlM_cons]
    simp only [List.getElem?_eq_getElem hi, Option.map_some', Option.some_bind,
      Option.bind_eq_bind]
    have hd : (data.drop i).take (n + 1) = data[i] :: (data.drop (i + 1)).take n := by
      rw [List.drop_eq_getElem_cons hi, List.take_succ_cons]
    rw [ih (i + 1) _ (by omega), hd]
    simp [List.flatMap_cons, List.append_assoc]

theorem flatMap_single (f : Byte → Byte) (l : List Byte) :
    (l.flatMap fun b => [f b]) = l.map f := by
  induction l with
  | nil => rfl
  | cons b rest ih => simp [List.flatMap_cons, ih]

theorem hexPart_eq (data : List Byte) (i stop : Nat) (h1 : i ≤ stop) (h2 : stop ≤ data.length) :
    hexPart data i stop = some (((data.drop i).take (stop - i)).flatMap specPair) := by
  unfold hexPart
  have hf : (fun (acc : GoString) (j : Nat) =>
      data[j]?.map (fun b => acc ++ padZero 2 (fmtHex b.val) ++ goStr " ")) =
      (fun acc j => data[j]?.map (fun b => acc ++ specPair b)) := by
    funext acc j
    congr 1
    funext b
    rw [List.append_assoc, codePair_eq]
  rw [hf, foldlM_index data specPair _ _ _ (by omega)]
  simp

theorem asciiPart_eq (data : List Byte) (i stop : Nat) (h1 : i ≤ stop) (h2 : stop ≤ data.length) :
    asciiPart data i stop = some (((data.drop i).take (stop - i)).map specAscii) := by
  unfold asciiPart
  have hf : (fun (acc : GoString) (j : Nat) =>
      data[j]?.map (fun b =>
        if b.val ≥ 32 ∧ b.val ≤ 126 then acc ++ [b] else acc ++ goStr ".")) =
      (fun acc j => data[j]?.map (fun b => acc ++ [specAscii b])) := by
    funext acc j
    congr 1
    funext b
    unfold specAscii
    by_cases hb : b.val ≥ 32 ∧ b.val ≤ 126
    · have hb2 : 0x20 ≤ b.val ∧ b.val ≤ 0x7E := hb
      rw [if_pos hb, if_pos hb2]
    · have hb2 : ¬ (0x20 ≤ b.val ∧ b.val ≤ 0x7E) := hb
      rw [if_neg hb, if_neg hb2]
      rfl
  rw [hf, foldlM_index data (fun b => [specAscii b]) _ _ _ (by omega)]
  rw [flatMap_single]
  simp

theorem dumpChunk_eq (data : List Byte) (k : Nat) (hk : 16 * k < min data.length 64) :
    (data.drop (16 * k)).take
      ((if 16 * k + 16 > min data.length 64 then min data.length 64 else 16 * k + 16) - 16 * k) =
      dumpChunk data k := by
  unfold dumpChunk
  rw [List.drop_take, List.take_take, List.take_eq_take]
  simp only [List.length_drop]
  split <;> omega

theorem dumpLine_eq (k : Nat) (hk : k < 4) (chunk : List Byte) :
    dumpLine (16 * k) (chunk.flatMap specPair) (chunk.map specAscii) = specLine k chunk := by
  unfold dumpLine specLine
  rw [padRight_hex, codeOffset_eq ⟨k, hk⟩]

theorem dumpLoop_eq (data : List Byte) :
    ∀ (fuel k0 : Nat) (preview : GoString), dumpLineCount data - k0 ≤ fuel →
      dumpLoop data (min data.length 64) fuel (16 * k0) preview =
        some (preview ++ (List.range' k0 (dumpLineCount data - k0)).flatMap
          (fun k => specLine k (dumpChunk data k))) := by
  intro fuel
  induction fuel with
  | zero =>
    intro k0 preview h
    have h0 : dumpLineCount data - k0 = 0 := by omega
    have hge : ¬ (16 * k0 < min data.length 64) := by
      unfold dumpLineCount at h0; omega
    simp [dumpLoop, hge, h0]
  | succ fuel ih =>
    intro k0 preview h
    unfold dumpLoop
    by_cases hlt : 16 * k0 < min data.length 64
    · have hk4 : k0 < 4 := by omega
      have hcount : dumpLineCount data - k0 = (dumpLineCount data - (k0 + 1)) + 1 := by
        unfold dumpLineCount; omega
      simp only [hlt, if_true]
      rw [hexPart_eq data _ _ (by split <;> omega) (by split <;> omega),
        asciiPart_eq data _ _ (by split <;> omega) (by split <;> omega)]
      simp only [dumpChunk_eq data k0 hlt]
      rw [dumpLine_eq k0 hk4, show 16 * k0 + 16 = 16 * (k0 + 1) by ring, ih (k0 + 1) _ (by omega),
        hcount, List.range'_succ]
      simp [List.flatMap_cons, List.append_assoc]
    · have h0 : dumpLineCount data - k0 = 0 := by
        unfold dumpLineCount; omega
      simp [hlt, h0]

theorem generateBinaryPreview_eq (data : List Byte) (contentType : GoString) :
    generateBinaryPreview data contentType =
      some (previewHead data contentType ++ specDump data ++
        (if data.length > 64 then goStr "...\n" else [])) := by
  unfold generateBinaryPreview
  have hm : (if data.length < 64 then data.length else 64) = min data.length 64 := by
    split <;> omega
  simp only [hm]
  have h := dumpLoop_eq data (min data.length 64) 0
    (goStr "Content-Type: " ++ contentType ++ goStr "\n" ++
      (goStr "Size: " ++ fmtDec data.length ++ goStr " bytes\n\n") ++ categoryLine contentType ++
      goStr "\n十六进制预览 (前64字节):\n") (by unfold dumpLineCount; omega)
  rw [Nat.mul_zero] at h
  rw [h]
  simp only [Nat.sub_zero, ← List.range_eq_range']
  unfold previewHead specDump
  by_cases h64 : data.length > 64
  · have : data.length > min data.length 64 := by omega
    simp [h64, this]
  · have : ¬ data.length > min data.length 64 := by omega
    simp [h64, this]

theorem flatMap_chunks (l : List Byte) :
    ∀ (n k0 : Nat), l.length ≤ 16 * (k0 + n) →
      (List.range' k0 n).flatMap (fun k => (l.drop (16 * k)).take 16) = l.drop (16 * k0) := by
  intro n
  induction n with
  | zero =>
    intro k0 h
    simp only [List.range'_zero, List.flatMap_nil]
    exact (List.drop_eq_nil_of_le (by omega)).symm
  | succ n ih =>
    intro k0 h
    rw [List.range'_succ, List.flatMap_cons, ih (k0 + 1) (by omega)]
    have : l.drop (16 * (k0 + 1)) = (l.drop (16 * k0)).drop 16 := by
      rw [List.drop_drop]; congr 1
    rw [this, List.take_append_drop]

theorem length_dumpChunk (data : List Byte) (k : Nat) :
    (dumpChunk data k).length = min 16 (min 64 data.length - 16 * k) := by
  simp [dumpChunk, List.length_take, List.length_drop]

theorem length_hexColumn (chunk : List Byte) (h : chunk.length ≤ 16) :
    (hexColumn chunk).length = 48 := by
  unfold hexColumn
  rw [List.length_append, List.length_replicate, length_flatMap_specPair]
  omega

theorem specLine_bar (k : Nat) (chunk : List Byte) (h : chunk.length ≤ 16) :
    (specLine k chunk)[55]? = some 0x7C := by
  have hlen : (specOffset k ++ goStr ": " ++ hexColumn chunk).length = 54 := by
    simp [specOffset, length_hexColumn chunk h, show (goStr ": ").length = 2 from rfl]
  have hs : specLine k chunk =
      (specOffset k ++ goStr ": " ++ hexColumn chunk) ++
        (0x20 :: 0x7C :: (chunk.map specAscii ++ goStr "|\n")) := by
    unfold specLine
    rw [show goStr " |" = [0x20, 0x7C] from by decide]
    simp [List.append_assoc]
  rw [hs, List.getElem?_append_right (by omega), hlen]
  simp

/-- C7: `generateBinaryPreview` always returns; its dump shows exactly the first
`min(n, 64)` bytes in `ceil(min(n, 64) / 16)` lines of at most 16 bytes, line
`k` being the four-digit offset `16k`, `": "`, the hex pairs padded to 48
characters, `" |"` (the bar at index 55 of every line), one ASCII-column
character per byte and `"|"`; the line `...` follows exactly when `n > 64`. -/
theorem generateBinaryPreview_shape (data : List Byte) (contentType : GoString) :
    generateBinaryPreview data contentType =
      some (previewHead data contentType ++ specDump data ++
        (if data.length > 64 then goStr "...\n" else [])) ∧
    dumpLineCount data = (min data.length 64 + 15) / 16 ∧
    (List.range (dumpLineCount data)).flatMap (dumpChunk data) = data.take (min data.length 64) ∧
    ∀ k : Fin (dumpLineCount data),
      1 ≤ (dumpChunk data k.val).length ∧ (dumpChunk data k.val).length ≤ 16 ∧
      (specOffset k.val).length = 4 ∧
      (hexColumn (dumpChunk data k.val)).length = 48 ∧
      ((dumpChunk data k.val).map specAscii).length = (dumpChunk data k.val).length ∧
      (specLine k.val (dumpChunk data k.val))[55]? = some 0x7C := by
  refine ⟨generateBinaryPreview_eq data contentType, rfl, ?_, ?_⟩
  · have h := flatMap_chunks (data.take 64) (dumpLineCount data) 0
      (by simp only [List.length_take, dumpLineCount]; omega)
    rw [List.range_eq_range']
    simp only [Nat.mul_zero, List.drop_zero] at h
    have ht : data.take (min data.length 64) = data.take 64 := by
      rw [List.take_eq_take]; omega
    rw [ht]
    exact h
  · intro k
    have hk := k.isLt
    have hl := length_dumpChunk data k.val
    have h16 : (dumpChunk data k.val).length ≤ 16 := by omega
    refine ⟨?_, h16, rfl, length_hexColumn _ h16, by simp, specLine_bar _ _ h16⟩
    unfold dumpLineCount at hk
    omega

/-! ### Body classification -/
theorem isBinaryContent_text_plain (T : CaseTable) :
    isBinaryContent T (goStr "text/plain") = false := rfl

theorem isBinaryContent_image_png (T : CaseTable) :
    isBinaryContent T (goStr "image/png") = true := rfl

theorem dumpChunk_take (data : List Byte) (k : Nat) :
    dumpChunk (data.take 64) k = dumpChunk data k := by
  simp [dumpChunk, List.take_take]

theorem specDump_take (data : List Byte) : specDump (data.take 64) = specDump data := by
  unfold specDump dumpLineCount
  simp only [dumpChunk_take, List.length_take]
  congr 2
  omega

theorem HasPrefix_append (p s : GoString) : HasPrefix (p ++ s) p = true := by
  unfold HasPrefix
  induction p with
  | nil => simp [List.isPrefixOf]
  | cons a p ih => simp [List.isPrefixOf, ih]

theorem buildResponse_body (T : CaseTable) (req : CurlRequest) (resp : HttpResponse)
    (chain : List GoString) (bytes : List Byte) (view : BodyView)
    (hH : req.HeadOnly = false) (hM : req.Method ≠ goStr "HEAD") (hB : resp.Body = .ok bytes)
    (hv : classifyBody T bytes resp.ContentType = some view) :
    buildResponse T req resp chain =
      .ok { URL := req.URL, Method := req.Method, StatusCode := resp.StatusCode,
            StatusText := resp.Status, Body := view.Body, BodyPreview := view.BodyPreview,
            BodySize := bytes.length, IsBinary := view.IsBinary,
            ContentLength := resp.ContentLength, ContentType := resp.ContentType,
            RedirectChain := chain } := by
  unfold buildResponse
  simp [hH, hM, hB, hv]

theorem classifyBody_binary_eq (T : CaseTable) (b : List Byte) (contentType : GoString)
    (h : isBinaryContent T contentType = true ∨ utf8Valid b = false) :
    classifyBody T b contentType =
      (generateBinaryPreview b contentType).map (fun preview =>
        { Body := goStr "[二进制数据 - " ++ fmtDec b.length ++ goStr " 字节]",
          BodyPreview := preview, IsBinary := true }) := by
  have hb : (!utf8Valid b || isBinaryContent T contentType) = true := by
    rcases h with h | h <;> simp [h]
  unfold classifyBody
  simp only [hb, if_true]

theorem previewHead_prefix (b : List Byte) (contentType rest : GoString) :
    HasPrefix (previewHead b contentType ++ rest)
      (goStr "Content-Type: " ++ contentType ++ goStr "\n") = true := by
  unfold previewHead
  simp only [List.append_assoc]
  rw [← List.append_assoc (goStr "Content-Type: "), ← List.append_assoc]
  exact HasPrefix_append _ _

theorem classifyBody_text (T : CaseTable) (body : List Byte) (h : utf8Valid body = true) :
    classifyBody T body (goStr "text/plain") =
      some { Body := body,
             BodyPreview := if body.length ≤ 10000 then body
                            else body.take 10000 ++ truncationMarker,
             IsBinary := false } := by
  unfold classifyBody
  simp only [h, isBinaryContent_text_plain, Bool.not_true, Bool.or_false, Bool.false_eq_true,
    if_false]
  by_cases hl : body.length ≤ 10000
  · have : ¬ body.length > 10000 := by omega
    simp only [this, hl, if_true, if_false]
  · have : body.length > 10000 := by omega
    simp only [this, hl, if_true, if_false]

/-- C4: when the request is not head-only and the response has a content type
on the binary prefix list after lower-casing (`image/png` is one), or a body
that is not valid UTF-8, the result has `IsBinary = true`, the size placeholder
as `Body`, and as `BodyPreview` the output of `generateBinaryPreview`, which
starts with the `Content-Type` line and dumps the first 64 bytes only. -/
theorem Execute_binary_body (T : CaseTable) (req : CurlRequest) (resp : HttpResponse)
    (chain : List GoString) (b : List Byte)
    (hH : req.HeadOnly = false) (hM : req.Method ≠ goStr "HEAD") (hB : resp.Body = .ok b)
    (h : (∃ p ∈ binaryTypes, HasPrefix (ToLower T resp.ContentType) p = true) ∨
      utf8Valid b = false) :
    ∃ r preview, buildResponse T req resp chain = .ok r ∧
      generateBinaryPreview b resp.ContentType = some preview ∧
      r.IsBinary = true ∧
      r.Body = goStr "[二进制数据 - " ++ fmtDec b.length ++ goStr " 字节]" ∧
      r.BodyPreview = preview ∧
      HasPrefix preview (goStr "Content-Type: " ++ resp.ContentType ++ goStr "\n") = true ∧
      preview = previewHead b resp.ContentType ++ specDump (b.take 64) ++
        (if b.length > 64 then goStr "...\n" else []) ∧
      isBinaryContent T (goStr "image/png") = true := by
  have hbin : isBinaryContent T resp.ContentType = true ∨ utf8Valid b = false := by
    rcases h with ⟨p, hp, hpre⟩ | h
    · left; unfold isBinaryContent; exact List.any_eq_true.mpr ⟨p, hp, hpre⟩
    · right; exact h
  have hv := classifyBody_binary_eq T b resp.ContentType hbin
  rw [generateBinaryPreview_eq, Option.map_some'] at hv
  refine ⟨_, _, buildResponse_body T req resp chain b _ hH hM hB hv,
    generateBinaryPreview_eq b resp.ContentType, rfl, rfl, rfl, ?_, ?_,
    isBinaryContent_image_png T⟩
  · rw [List.append_assoc]; exact previewHead_prefix _ _ _
  · rw [specDump_take]

/-- C4 witness: the bytes `89 50 4E 47` served as `image/png`. -/
theorem Execute_binary_body_witness :
    ∃ r preview, buildResponse plainCase defaultRequest pngResponse [] = .ok r ∧
      generateBinaryPreview [0x89, 0x50, 0x4E, 0x47] (goStr "image/png") = some preview ∧
      r.IsBinary = true ∧
      r.Body = goStr "[二进制数据 - 4 字节]" ∧
      r.BodyPreview = preview ∧
      HasPrefix preview (goStr "Content-Type: image/png\n") = true ∧
      preview = previewHead [0x89, 0x50, 0x4E, 0x47] (goStr "image/png") ++
        specDump [0x89, 0x50, 0x4E, 0x47] ∧
      isBinaryContent plainCase (goStr "image/png") = true :=
  Execute_binary_body plainCase defaultRequest pngResponse [] [0x89, 0x50, 0x4E, 0x47]
    (by decide) (by decide) rfl (Or.inl ⟨goStr "image/", by decide, by decide⟩)

/-- C3 (amended): when the request is not head-only and the response is served
as `text/plain` with a body that is valid UTF-8, the result has
`IsBinary = false`, `Body` equal to the full text, and `BodyPreview` equal to
the body when it has at most 10,000 bytes and otherwise to its first 10,000
bytes followed by the truncation marker. -/
theorem Execute_text_body (T : CaseTable) (req : CurlRequest) (resp : HttpResponse)
    (chain : List GoString) (body : List Byte)
    (hH : req.HeadOnly = false) (hM : req.Method ≠ goStr "HEAD") (hB : resp.Body = .ok body)
    (hC : resp.ContentType = goStr "text/plain") (hV : utf8Valid body = true) :
    ∃ r, buildResponse T req resp chain = .ok r ∧ r.IsBinary = false ∧ r.Body = body ∧
      r.BodyPreview = (if body.length ≤ 10000 then body
                       else body.take 10000 ++ goStr "\n\n... [内容过长，已截断]") := by
  have hv := classifyBody_text T body hV
  rw [← hC] at hv
  exact ⟨_, buildResponse_body T req resp chain body _ hH hM hB hv, rfl, rfl, rfl⟩

/-- C3 witness: the text `ok` served as `text/plain`. -/
theorem Execute_text_body_witness :
    ∃ r, buildResponse plainCase defaultRequest ok200 [] = .ok r ∧ r.IsBinary = false ∧
      r.Body = goStr "ok" ∧
      r.BodyPreview = (if (goStr "ok").length ≤ 10000 then goStr "ok"
                       else (goStr "ok").take 10000 ++ goStr "\n\n... [内容过长，已截断]") :=
  Execute_text_body plainCase defaultRequest ok200 [] (goStr "ok") (by decide) (by decide) rfl rfl
    (by decide)

theorem runesAux_nil (fuel : Nat) : runesAux fuel [] = [] := by
  cases fuel <;> rfl

theorem runesAux_letters (n : Nat) :
    ∀ fuel, n + 1 ≤ fuel →
      runesAux fuel (List.replicate n 0x61 ++ [0xC3, 0xA9]) =
        List.replicate n (0x61, [0x61]) ++ [(0xE9, [0xC3, 0xA9])] := by
  induction n with
  | zero =>
    intro fuel h
    cases fuel with
    | zero => omega
    | succ fuel =>
      simp only [List.replicate_zero, List.nil_append]
      unfold runesAux
      have hd : DecodeRune [0xC3, 0xA9] = (0xE9, 2) := by decide
      simp only [hd, List.take, List.drop, runesAux_nil]
  | succ n ih =>
    intro fuel h
    cases fuel with
    | zero => omega
    | succ fuel =>
      simp only [List.replicate_succ, List.cons_append]
      unfold runesAux
      rw [DecodeRune_ascii 0x61 _ (by decide)]
      simp only [List.take, List.drop]
      rw [ih fuel (by omega)]
      rfl

theorem runes_letters (n : Nat) :
    runes (List.replicate n 0x61 ++ [0xC3, 0xA9]) =
      List.replicate n (0x61, [0x61]) ++ [(0xE9, [0xC3, 0xA9])] := by
  unfold runes
  exact runesAux_letters n _ (by simp)

theorem utf8Valid_letters (n : Nat) :
    utf8Valid (List.replicate n 0x61 ++ [0xC3, 0xA9]) = true := by
  unfold utf8Valid
  rw [runes_letters, List.all_append]
  simp [RuneError, List.all_replicate]

theorem RuneCount_letters (n : Nat) :
    RuneCount (List.replicate n 0x61 ++ [0xC3, 0xA9]) = n + 1 := by
  unfold RuneCount
  rw [runes_letters]
  simp

theorem length_letters (n : Nat) :
    (List.replicate n (0x61 : Byte) ++ [0xC3, 0xA9]).length = n + 2 := by
  simp

theorem take_letters (n : Nat) :
    (List.replicate n (0x61 : Byte) ++ [0xC3, 0xA9]).take (n + 1) =
      List.replicate n 0x61 ++ [0xC3] := by
  have h := @List.take_append Byte (List.replicate n 0x61) [0xC3, 0xA9] 1
  simp only [List.length_replicate] at h
  exact h

theorem length_truncationMarker : truncationMarker.length = 32 := by decide

theorem utf8Valid_longText : utf8Valid longText = true := utf8Valid_letters 9999

theorem RuneCount_longText : RuneCount longText = 10000 := RuneCount_letters 9999

theorem length_longText : longText.length = 10001 := length_letters 9999

theorem take_longText : longText.take 10000 = List.replicate 9999 0x61 ++ [0xC3] :=
  take_letters 9999

/-- C3 (as stated) fails: `longText` is valid UTF-8 with exactly 10,000
characters, yet its preview is not the text itself but its first 10,000 bytes,
ending inside the last character, followed by the truncation marker. -/
theorem Execute_text_body_counterexample :
    utf8Valid longText = true ∧ RuneCount longText = 10000 ∧
    ∃ r, buildResponse plainCase defaultRequest longTextResponse [] = .ok r ∧
      r.BodyPreview = List.replicate 9999 0x61 ++ [0xC3] ++ truncationMarker ∧
      r.BodyPreview ≠ longText := by
  refine ⟨utf8Valid_longText, RuneCount_longText, ?_⟩
  have hv := classifyBody_text plainCase longText utf8Valid_longText
  have hlen : ¬ longText.length ≤ 10000 := by rw [length_longText]; omega
  rw [if_neg hlen, take_longText] at hv
  have hr := buildResponse_body plainCase defaultRequest longTextResponse [] longText _
    (by decide) (by decide) rfl hv
  refine ⟨_, hr, rfl, ?_⟩
  intro heq
  have := congrArg List.length heq
  simp only [List.length_append, List.length_replicate, length_longText,
    length_truncationMarker, List.length_singleton] at this
  omega

/-! ### Scheme defaulting -/
theorem cut_cons_ne (a sep : Byte) (s : GoString) (h : a ≠ sep) :
    cut (a :: s) sep = (a :: (cut s sep).1, (cut s sep).2) := by
  unfold cut IndexByte
  simp only [List.indexOf_cons_ne _ h, List.length_cons, Nat.succ_lt_succ_iff]
  by_cases hi : List.indexOf sep s < s.length
  · simp [hi]
  · simp [hi]

theorem cut_https (u : GoString) :
    cut (goStr "https://" ++ u) 0x23 = (goStr "https://" ++ (cut u 0x23).1, (cut u 0x23).2) := by
  rw [goStr_https]
  simp only [List.cons_append, List.nil_append]
  repeat rw [cut_cons_ne _ _ _ (by decide)]

theorem getSchemeAux_letter (raw : GoString) (i : Nat) (c : Byte) (cs : GoString)
    (h : 0x61 ≤ c.val ∧ c.val ≤ 0x7A) :
    getSchemeAux raw i (c :: cs) = getSchemeAux raw (i + 1) cs := by
  rw [getSchemeAux, if_pos (Or.inl h)]

theorem getSchemeAux_colon (raw : GoString) (i : Nat) (cs : GoString) (h : i ≠ 0) :
    getSchemeAux raw i (0x3A :: cs) = .ok (raw.take i, raw.drop (i + 1)) := by
  rw [getSchemeAux, if_neg (by decide), if_neg (by decide), if_pos rfl, if_neg h]

theorem getScheme_https (v : GoString) :
    getScheme (goStr "https://" ++ v) = .ok (goStr "https", goStr "//" ++ v) := by
  rw [goStr_https, show goStr "https" = [0x68, 0x74, 0x74, 0x70, 0x73] from by decide,
    show goStr "//" = [0x2F, 0x2F] from by decide]
  simp only [List.cons_append, List.nil_append]
  unfold getScheme
  rw [getSchemeAux_letter _ _ _ _ (by decide), getSchemeAux_letter _ _ _ _ (by decide),
    getSchemeAux_letter _ _ _ _ (by decide), getSchemeAux_letter _ _ _ _ (by decide),
    getSchemeAux_letter _ _ _ _ (by decide), getSchemeAux_colon _ _ _ (by decide)]
  rfl

theorem parse_scheme (L : UrlLib) (T : CaseTable) (raw s rest : GoString) (url : URL)
    (hstar : raw ≠ goStr "*") (hg : getScheme raw = .ok (s, rest))
    (hp : parse L T raw = .ok url) : url.Scheme = ToLower T s := by
  unfold parse at hp
  simp only [hstar, if_false, hg] at hp
  split_ifs at hp <;> cases hp <;> rfl

theorem ToLower_https (T : CaseTable) : ToLower T (goStr "https") = goStr "https" := rfl

theorem https_ne_star (v : GoString) : goStr "https://" ++ v ≠ goStr "*" := by
  rw [goStr_https]
  intro h
  have := congrArg List.length h
  simp [show (goStr "*").length = 1 from rfl] at this

theorem urlParse_https_scheme (L : UrlLib) (T : CaseTable) (u : GoString) (url : URL)
    (h : urlParse L T (goStr "https://" ++ u) = .ok url) : url.Scheme ≠ [] := by
  unfold urlParse at h
  rw [cut_https] at h
  simp only at h
  have key : ∀ url', parse L T (goStr "https://" ++ (cut u 0x23).1) = .ok url' →
      url'.Scheme ≠ [] := by
    intro url' hp
    rw [parse_scheme L T _ _ _ url' (https_ne_star _) (getScheme_https _) hp, ToLower_https]
    decide
  split at h
  · cases h
  · rename_i url' hp
    split_ifs at h
    · injection h with h; subst h; exact key _ hp
    · injection h with h; subst h; exact key _ hp

theorem checkURL_https (L : UrlLib) (T : CaseTable) (req : CurlRequest) :
    checkURL L T { req with URL := goStr "https://" ++ req.URL } =
      match urlParse L T (goStr "https://" ++ req.URL) with
      | .error e => .error (.invalidURL e)
      | .ok _ => .ok { req with URL := goStr "https://" ++ req.URL } := by
  unfold checkURL
  simp only
  cases hp : urlParse L T (goStr "https://" ++ req.URL) with
  | error e => rfl
  | ok url =>
    simp only [urlParse_https_scheme L T req.URL url hp, if_false]

theorem checkURL_no_scheme (L : UrlLib) (T : CaseTable) (req : CurlRequest) (url : URL)
    (hp : urlParse L T req.URL = .ok url) (hs : url.Scheme = []) :
    checkURL L T req =
      match urlParse L T (goStr "https://" ++ req.URL) with
      | .error e => .error (.invalidURL e)
      | .ok _ => .ok { req with URL := goStr "https://" ++ req.URL } := by
  unfold checkURL
  simp only [hp, hs, if_true]

theorem applyDefaults_URL (req : CurlRequest) : (applyDefaults req).URL = req.URL := by
  unfold applyDefaults forceHeadOnly
  simp only
  split_ifs <;> rfl

theorem buildResponse_URL (T : CaseTable) (req : CurlRequest) (resp : HttpResponse)
    (chain : List GoString) (r : CurlResponse) (h : buildResponse T req resp chain = .ok r) :
    r.URL = req.URL := by
  unfold buildResponse at h
  simp only at h
  split at h
  · split at h
    · cases h
    · split at h
      · cases h
      · injection h with h; subst h; rfl
  · injection h with h; subst h; rfl

theorem executeRequest_URL (T : CaseTable) (req : CurlRequest) (x : Exchange) (r : CurlResponse)
    (h : executeRequest T req x = .ok r) : r.URL = req.URL := by
  unfold executeRequest at h
  split at h
  · cases h
  · exact buildResponse_URL T req _ _ r h

theorem Execute_URL (L : UrlLib) (T : CaseTable) (req : CurlRequest) (x : Exchange)
    (r : CurlResponse) (h : Execute L T req x = .ok r) :
    ∃ n, normalizeRequest L T req = .ok n ∧ r.URL = n.URL := by
  unfold Execute at h
  split at h
  · cases h
  · rename_i n hn
    split at h
    · exact ⟨n, hn, executeRequest_URL T n x r h⟩
    · cases h

/-- C8 (amended): for a URL that `url.Parse` accepts with an empty scheme, the
validation at the head of `Execute` gives the same outcome as for the same URL
with `https://` in front, so does the whole call, and when the request is
accepted the effective URL, which the result echoes, is `https://` followed by
the URL. -/
theorem Execute_scheme_default (L : UrlLib) (T : CaseTable) (req : CurlRequest) (x : Exchange)
    (url : URL) (hp : urlParse L T req.URL = .ok url) (hs : url.Scheme = []) :
    normalizeRequest L T { req with URL := goStr "https://" ++ req.URL } =
      normalizeRequest L T req ∧
    Execute L T { req with URL := goStr "https://" ++ req.URL } x = Execute L T req x ∧
    (∀ n, normalizeRequest L T req = .ok n → n.URL = goStr "https://" ++ req.URL) ∧
    (∀ r, Execute L T req x = .ok r → r.URL = goStr "https://" ++ req.URL) := by
  have hc : checkURL L T { req with URL := goStr "https://" ++ req.URL } = checkURL L T req := by
    rw [checkURL_https, checkURL_no_scheme L T req url hp hs]
  have hn : normalizeRequest L T { req with URL := goStr "https://" ++ req.URL } =
      normalizeRequest L T req := by
    unfold normalizeRequest
    rw [hc]
  have hu : ∀ n, normalizeRequest L T req = .ok n → n.URL = goStr "https://" ++ req.URL := by
    intro n h
    unfold normalizeRequest at h
    rw [checkURL_no_scheme L T req url hp hs] at h
    split at h
    · cases h
    · rename_i c hcu
      injection h with h
      subst h
      rw [applyDefaults_URL]
      split at hcu
      · cases hcu
      · injection hcu with hcu; subst hcu; rfl
  refine ⟨hn, ?_, hu, ?_⟩
  · unfold Execute
    rw [hn]
  · intro r hr
    obtain ⟨n, hnn, hru⟩ := Execute_URL L T req x r hr
    rw [hru]
    exact hu n hnn

/-- C8 witness: the URL `example.com`. -/
theorem Execute_scheme_default_witness :
    urlParse laxLib plainCase (goStr "example.com") =
      .ok { Scheme := [], Opaque := [], RawQuery := [], ForceQuery := false } ∧
    normalizeRequest laxLib plainCase { defaultRequest with URL := goStr "https://example.com" } =
      normalizeRequest laxLib plainCase { defaultRequest with URL := goStr "example.com" } ∧
    normalizeRequest laxLib plainCase { defaultRequest with URL := goStr "example.com" } =
      .ok { defaultRequest with URL := goStr "https://example.com" } :=
  ⟨by decide,
   (Execute_scheme_default laxLib plainCase { defaultRequest with URL := goStr "example.com" }
      (redirectChainOf 0) _ (by decide : urlParse laxLib plainCase (goStr "example.com") =
        .ok { Scheme := [], Opaque := [], RawQuery := [], ForceQuery := false }) rfl).1,
   by decide⟩

/-- C8 (as stated) fails: `localhost:8080` is parsed with the scheme
`localhost` and kept as it is, not turned into `https://localhost:8080`; and
`127.0.0.1:8080` is rejected, while `https://127.0.0.1:8080` is accepted. -/
theorem Execute_scheme_default_counterexample :
    normalizeRequest laxLib plainCase { defaultRequest with URL := goStr "localhost:8080" } =
      .ok { defaultRequest with URL := goStr "localhost:8080" } ∧
    normalizeRequest laxLib plainCase { defaultRequest with URL := goStr "https://localhost:8080" } =
      .ok { defaultRequest with URL := goStr "https://localhost:8080" } ∧
    normalizeRequest laxLib plainCase { defaultRequest with URL := goStr "127.0.0.1:8080" } =
      .error (.invalidURL .colonInFirstSegment) ∧
    normalizeRequest laxLib plainCase { defaultRequest with URL := goStr "https://127.0.0.1:8080" } =
      .ok { defaultRequest with URL := goStr "https://127.0.0.1:8080" } := by
  decide

/-! ### DNS answers -/
theorem Join_eq_intercalate (sep : GoString) (l : List GoString) :
    Join l sep = List.intercalate sep l := by
  induction l with
  | nil => rfl
  | cons a rest ih =>
    cases rest with
    | nil => simp [Join, List.intercalate]
    | cons b rest' =>
      rw [Join, ih]
      · simp [List.intercalate, List.intersperse, List.append_assoc]
      · intro h; cases h

theorem parseRecord_eq (D : DnsLib) (rr : RR) : parseRecord D rr = some (specRecord D rr) := by
  cases rr <;>
    simp [parseRecord, specRecord, specValue, RR.Header, Join_eq_intercalate, List.intercalate,
      List.intersperse, List.append_assoc]

theorem answerLoop_eq (D : DnsLib) (answers : List RR) :
    ∀ records, answerLoop D records answers = records ++ answers.map (specRecord D) := by
  induction answers with
  | nil => intro records; simp [answerLoop]
  | cons rr rest ih =>
    intro records
    simp [answerLoop, parseRecord_eq, ih, List.append_assoc]

theorem ipString_v4 (D : DnsLib) (a b c d : Byte) :
    ipString D [a, b, c, d] = dottedQuad a b c d := by
  simp [ipString, To4, dottedQuad]

/-- C10: when the record type is known and the resolver answers with response
code success, `Query` returns one record per answer record, in the order of the
answer section, each with the header name, the type label, the TTL and the
value the specification gives for its kind; the address string of an A record
with an IPv4 address is its dotted quad. -/
theorem Query_answers (D : DnsLib) (T : CaseTable)
    (exchange : GoString → Nat → GoString → Except GoString Msg)
    (domain recordType server : GoString) (qtype : Nat) (response : Msg)
    (hq : D.StringToType (ToUpper T recordType) = some qtype)
    (hx : exchange domain qtype server = .ok response) (hr : response.Rcode = 0) :
    Query D T exchange domain recordType server = .ok (response.Answer.map (specRecord D)) ∧
    (response.Answer.map (specRecord D)).length = response.Answer.length ∧
    (∀ rr, parseRecord D rr = some (specRecord D rr)) ∧
    (∀ hdr a b c d, specValue D (.A hdr [a, b, c, d]) = dottedQuad a b c d) := by
  refine ⟨?_, by simp, parseRecord_eq D, fun _ a b c d => ipString_v4 D a b c d⟩
  unfold Query
  simp [hq, hx, hr, answerLoop_eq]

/-- C10 witness: one A record with the address 93.184.216.34. -/
theorem Query_answers_witness :
    Query sampleDns plainCase sampleExchange (goStr "example.com") (goStr "a")
        (goStr "8.8.8.8:53") =
      .ok [{ Name := goStr "example.com.", Type_ := goStr "A", TTL := 300,
             Value := goStr "93.184.216.34" }] :=
  (Query_answers sampleDns plainCase sampleExchange (goStr "example.com") (goStr "a")
    (goStr "8.8.8.8:53") 1
    { Rcode := 0, Answer := [.A ⟨goStr "example.com.", 1, 300⟩ [93, 184, 216, 34]] }
    (by decide) rfl rfl).1

end LingDig
